import Mathlib

/-!
# EduScribe workflow: shallow embedding and verification

This file embeds the core logic of the EduScribe Apps Script workflow
(recording discovery and renaming, transcription-job monitoring, transcript
distribution and per-student homework consolidation) as executable Lean
functions over `List Char` (JavaScript strings), and proves the specified
properties about them.

JavaScript regular expressions are compiled by hand into total Lean functions;
each definition records, in its doc comment, the source regex or statement it
embeds.
-/

namespace EduScribe

/-- JavaScript whitespace: the `\s` class used by `String.prototype.trim`,
`\s+` and friends (space, tab, LF, VT, FF, CR, NBSP, Unicode space
separators, line/paragraph separators, BOM). -/
def wsChars : List Char :=
  [' ', '\t', '\n', '\x0b', '\x0c', '\r', '\u00A0', '\u1680',
   '\u2000', '\u2001', '\u2002', '\u2003', '\u2004', '\u2005', '\u2006',
   '\u2007', '\u2008', '\u2009', '\u200A',
   '\u2028', '\u2029', '\u202F', '\u205F', '\u3000', '\uFEFF']

/-- Membership test for the JavaScript whitespace class. -/
def jsWs (c : Char) : Bool := wsChars.contains c

/-- `String.prototype.trim()`. -/
def jsTrim (l : List Char) : List Char :=
  ((l.dropWhile jsWs).reverse.dropWhile jsWs).reverse

/-- The separator class `[ _-]` of the Meet-format regex. -/
def isSepChar (c : Char) : Bool := c = ' ' || c = '_' || c = '-'

/-- `\d{4}-\d{2}-\d{2}` tested against exactly ten characters. -/
def dateChars : List Char → Bool
  | [y1, y2, y3, y4, h1, m1, m2, h2, d1, d2] =>
    y1.isDigit && y2.isDigit && y3.isDigit && y4.isDigit && h1 = '-' &&
    m1.isDigit && m2.isDigit && h2 = '-' && d1.isDigit && d2.isDigit
  | _ => false

/-- The identifier-fragment class `[A-Za-z0-9_-]`. -/
def idFragChar (c : Char) : Bool := c.isAlpha || c.isDigit || c = '_' || c = '-'

/-- `fileName.replace(/\.[^/.]+$/, "")`: strip a trailing dot-extension
(the regex matches at the last dot whose suffix is nonempty and free of
`/` and `.`). -/
def stripExtension (l : List Char) : List Char :=
  let notDotSlash : Char → Bool := fun c => !(c = '.' || c = '/')
  let rev := l.reverse
  let ext := rev.takeWhile notDotSlash
  match rev.dropWhile notDotSlash with
  | '.' :: rest => if ext.isEmpty then l else rest.reverse
  | _ => l

/-- One attempted continuation of `meetRegex` after the lazy group:
`[ _-]+(\d{4}-\d{2}-\d{2}).*$`.  The separator run `[ _-]+` is greedy with
backtracking, but no separator is a digit, so only the maximal run can be
followed by the date group: greedy-with-backtracking equals
skip-all-separators. -/
def meetTail (rest : List Char) : Option (List Char) :=
  match rest with
  | [] => none
  | c :: _ =>
    if isSepChar c then
      let d := (rest.dropWhile isSepChar).take 10
      if dateChars d then some d else none
    else none

/-- `meetRegex = /^(.+?)[ _-]+(\d{4}-\d{2}-\d{2}).*$/` : the lazy group
`(.+?)` grows from one character, so the first split admitting a tail match
wins. -/
def meetAux (acc : List Char) : List Char → Option (List Char × List Char)
  | [] => none
  | c :: rest =>
    match meetTail rest with
    | some d => some (acc ++ [c], d)
    | none => meetAux (acc ++ [c]) rest

/-- Full match of `meetRegex` against a whole string. -/
def meetMatch (l : List Char) : Option (List Char × List Char) := meetAux [] l

/-- Tail of `processedRegex` after the lazy group:
`_(\d{4}-\d{2}-\d{2})(?:_[A-Za-z0-9_-]{10})?$`. -/
def processedTail (rest : List Char) : Option (List Char) :=
  match rest with
  | '_' :: cs =>
    let d := cs.take 10
    if dateChars d then
      match cs.drop 10 with
      | [] => some d
      | '_' :: fr => if fr.length = 10 && fr.all idFragChar then some d else none
      | _ => none
    else none
  | _ => none

/-- `processedRegex = /^(.+?)_(\d{4}-\d{2}-\d{2})(?:_[A-Za-z0-9_-]{10})?$/`. -/
def processedAux (acc : List Char) : List Char → Option (List Char × List Char)
  | [] => none
  | c :: rest =>
    match processedTail rest with
    | some d => some (acc ++ [c], d)
    | none => processedAux (acc ++ [c]) rest

/-- Full match of `processedRegex` against a whole string. -/
def processedMatch (l : List Char) : Option (List Char × List Char) := processedAux [] l

/-- `specialCharsRegex = /[~^*\x27\x60+]/g` (tilde, caret, asterisk,
apostrophe, backtick, plus). -/
def specialChar (c : Char) : Bool :=
  c = '~' || c = '^' || c = '*' || c = '\x27' || c = '\x60' || c = '+'

/-- `rawNamePart.replace(specialCharsRegex, '')`. -/
def removeSpecials (l : List Char) : List Char := l.filter (fun c => !specialChar c)

/-- `.replace(/_/g, " ")`. -/
def underscoresToSpaces (l : List Char) : List Char :=
  l.map (fun c => if c = '_' then ' ' else c)

/-- Worker for `.replace(/\s+/g, ' ')`: the flag records whether we are
inside a whitespace run already replaced. -/
def collapseWsAux : Bool → List Char → List Char
  | _, [] => []
  | prevWs, c :: cs =>
    if jsWs c then
      if prevWs then collapseWsAux true cs else ' ' :: collapseWsAux true cs
    else c :: collapseWsAux false cs

/-- `.replace(/\s+/g, ' ')`: each maximal whitespace run becomes one space. -/
def collapseWs (l : List Char) : List Char := collapseWsAux false l

/-- Worker for `.replace(/\s+/g, "_")` (the renamer). -/
def wsToUnderscoreAux : Bool → List Char → List Char
  | _, [] => []
  | prevWs, c :: cs =>
    if jsWs c then
      if prevWs then wsToUnderscoreAux true cs else '_' :: wsToUnderscoreAux true cs
    else c :: wsToUnderscoreAux false cs

/-- `studentName.replace(/\s+/g, "_")`: each maximal whitespace run becomes
one underscore. -/
def wsRunsToUnderscore (l : List Char) : List Char := wsToUnderscoreAux false l

/-- `.replace(/[ -]+$/, "")`: strip trailing spaces and hyphens. -/
def stripTrailingSpaceDash (l : List Char) : List Char :=
  (l.reverse.dropWhile (fun ch => ch = ' ' || ch = '-')).reverse

/-- The cleaning chain applied to the name capture group in
`extractStudentInfoFromFilename`:
`raw.replace(specialCharsRegex, '').trim().replace(/_/g, " ")`
`.replace(/\s+/g, ' ').replace(/[ -]+$/, "").trim()`. -/
def cleanRawName (raw : List Char) : List Char :=
  jsTrim (stripTrailingSpaceDash (collapseWs (underscoresToSpaces
    (jsTrim (removeSpecials raw)))))

/-- The parser's result: `(studentName, classDate)`. -/
structure StudentInfo where
  studentName : List Char
  classDate : List Char
deriving DecidableEq

/-- `extractStudentInfoFromFilename(fileName)`: strip the extension, trim,
normalize `/` to `-`, try `meetRegex` then `processedRegex`, clean the name
capture, and validate name nonempty and date exactly `YYYY-MM-DD`. -/
def extractStudentInfoFromFilename (fileName : List Char) : Option StudentInfo :=
  let cleanedFileName :=
    (jsTrim (stripExtension fileName)).map (fun c => if c = '/' then '-' else c)
  match (meetMatch cleanedFileName).orElse (fun _ => processedMatch cleanedFileName) with
  | some (g1, g2) =>
    let studentName := cleanRawName g1
    if !studentName.isEmpty && dateChars g2 then some ⟨studentName, g2⟩ else none
  | none => none

/-- The renamer of `processNewRecordings`:
`` `${studentName.replace(/\s+/g, "_")}_${classDate}_${fileId.substring(0, 10)}.mp4` ``. -/
def canonicalName (studentName classDate fileId : List Char) : List Char :=
  wsRunsToUnderscore studentName ++ '_' :: classDate ++ '_' :: fileId.take 10
    ++ ['.', 'm', 'p', '4']

/-- The transcript-import warning-character class `[+\-~\x60\x27]`
(plus, hyphen, tilde, backtick, apostrophe), replaced by spaces. -/
def warningChar (c : Char) : Bool :=
  c = '+' || c = '-' || c = '~' || c = '\x60' || c = '\x27'

/-- The eight spellings of `.txt` admitted by `\.txt$` under the `/i` flag. -/
def txtVariants : List (List Char) :=
  [['.', 't', 'x', 't'], ['.', 't', 'x', 'T'], ['.', 't', 'X', 't'],
   ['.', 't', 'X', 'T'], ['.', 'T', 'x', 't'], ['.', 'T', 'x', 'T'],
   ['.', 'T', 'X', 't'], ['.', 'T', 'X', 'T']]

/-- Case-insensitive `\.txt$`: exactly a dot and three letters `txt` in
either case. -/
def extTxtCI (l : List Char) : Bool := txtVariants.contains l

/-- Tail of the transcript-name regex after the lazy group:
`_(\d{4}-\d{2}-\d{2})(?:_[A-Za-z0-9_-]{10})?\.txt$` with the `/i` flag.
The greedy optional group and the bare `\.txt` alternative have different
lengths, so at most one of them can reach `$`; testing them in either order
is equivalent. -/
def transcriptTail (rest : List Char) : Option (List Char) :=
  match rest with
  | '_' :: cs =>
    let d := cs.take 10
    if dateChars d then
      let rem := cs.drop 10
      if extTxtCI rem then some d
      else
        match rem with
        | '_' :: fr =>
          if (fr.take 10).all idFragChar && fr.length = 14 && extTxtCI (fr.drop 10)
          then some d else none
        | _ => none
    else none
  | _ => none

/-- `/^(.+?)_(\d{4}-\d{2}-\d{2})(?:_[A-Za-z0-9_-]{10})?\.txt$/i` with the
lazy group growing from one character. -/
def transcriptAux (acc : List Char) : List Char → Option (List Char × List Char)
  | [] => none
  | c :: rest =>
    match transcriptTail rest with
    | some d => some (acc ++ [c], d)
    | none => transcriptAux (acc ++ [c]) rest

/-- Full match of the transcript-name regex against a whole string. -/
def transcriptMatch (l : List Char) : Option (List Char × List Char) := transcriptAux [] l

/-- `toLowerCase()` (code points outside the basic latin letters are
unchanged, as in `Char.toLower`). -/
def toLowerList (l : List Char) : List Char := l.map Char.toLower

/-- The `(studentNameProcessed, date)` pair derived inline by
`importTranscriptsToDrive` from a transcript filename: match the strict
transcript regex, skip on an asterisk in the name capture, replace the
warning characters by spaces, normalize underscores and whitespace,
lowercase and trim.  `none` when the item is skipped before roster lookup. -/
def importDerivedPair (fileNameRelative : List Char) :
    Option (List Char × List Char) :=
  match transcriptMatch fileNameRelative with
  | none => none
  | some (g1, g2) =>
    if '*' ∈ g1 then none
    else
      let cleanedNamePart := g1.map (fun c => if warningChar c then ' ' else c)
      let studentNameProcessed :=
        jsTrim (toLowerList (collapseWs (underscoresToSpaces cleanedNamePart)))
      some (studentNameProcessed, g2)

/-- The transcript name produced by the Completion Handler for a canonical
recording name: the same stem with a `.txt` extension. -/
def canonicalTranscriptName (studentName classDate fileId : List Char) : List Char :=
  wsRunsToUnderscore studentName ++ '_' :: classDate ++ '_' :: fileId.take 10
    ++ ['.', 't', 'x', 't']

/-! ## The homework pipeline: data model and operations -/

/-- One data row of the `Current_Students` sheet, restricted to the fields
read by `rosterFindByEmail` (Student_Name col A, Student_ID col B, the
email column, the Drive-folder column, Life_And_Liestyle col Q). -/
structure RosterRow where
  studentId : List Char
  studentName : List Char
  email : List Char
  driveFolderId : List Char
  lifeStyle : List Char
deriving DecidableEq

/-- The student object returned by `rosterFindByEmail`. -/
structure Student where
  Student_ID : List Char
  Name : List Char
  Email : List Char
  Drive_Folder_ID : List Char
  LifeStyle : List Char
  RosterRowIndex : Nat
deriving DecidableEq

/-- Scan of the data rows: `r` is the 0-based index into the sheet values
(data rows start at 1); a hit returns `RosterRowIndex = r + 1`. -/
def rosterFindAux (target : List Char) : Nat → List RosterRow → Option Student
  | _, [] => none
  | r, row :: rest =>
    if row.email ≠ [] ∧ toLowerList (jsTrim row.email) = target then
      some ⟨row.studentId, row.studentName, jsTrim row.email, row.driveFolderId,
        row.lifeStyle, r + 1⟩
    else rosterFindAux target (r + 1) rest

/-- `rosterFindByEmail(email)`: first data row whose trimmed, lowercased
email equals the lowercased, trimmed argument. -/
def rosterFindByEmail (rows : List RosterRow) (email : List Char) : Option Student :=
  if email = [] then none
  else rosterFindAux (jsTrim (toLowerList email)) 1 rows

/-- `` hwId = `L${student.RosterRowIndex || 'X'}-${todayForHwId}` ``. -/
def hwIdFor (rosterRowIndex : Nat) (today : List Char) : List Char :=
  'L' :: (if rosterRowIndex = 0 then ['X'] else (Nat.repr rosterRowIndex).data)
    ++ '-' :: today

/-- Environment of the homework utilities: the roster, and the outcomes of
the external calls made by `saveHomeworkPrompt` / `assignHomework`.
`appendErr` collapses every throw inside the ledger-append `try` block
(missing script properties, missing sheet, `appendRow` failing) into one
optional error message. -/
structure HPEnv where
  roster : List RosterRow
  createFileOk : List Char → List Char → Bool
  newFileId : List Char
  appendErr : Option (List Char)
  trashOk : Bool
  token : List Char
  nowIso : List Char
  today : List Char
  portalBaseUrl : Option (List Char)
  mailOk : Bool

/-- One row of the `Homework_Push` ledger, in column order
`Student_ID, Student_Name, Student_Email, HW_ID, PromptFileID, Token,
AssignedAt, CompletedAt, Token_Status, Turns_Used`. -/
structure HWRow where
  studentId : List Char
  studentName : List Char
  studentEmail : List Char
  hwId : List Char
  promptFileId : List Char
  token : List Char
  assignedAt : List Char
  completedAt : List Char
  tokenStatus : List Char
  turnsUsed : Nat
deriving DecidableEq

deriving instance DecidableEq for Except

/-- Effects and outcome of one `saveHomeworkPrompt` call. -/
structure SaveResult where
  fileCreated : Option (List Char × List Char × List Char)
  fileTrashed : Bool
  rows : List HWRow
  result : Except (List Char) (List Char)
deriving DecidableEq

/-- `saveHomeworkPrompt(studentEmail, hwId, basePromptText, promptFileName)`
(part_000 935-1012): look up the student, fall back on an invalid prompt
filename, create the prompt file, append one ledger row
(`Token_Status = Active`, `Turns_Used = 0`), and on append failure trash the
created file (best effort) and re-raise the append error. -/
def saveHomeworkPrompt (env : HPEnv)
    (studentEmail hwId basePromptText promptFileName : List Char) : SaveResult :=
  match rosterFindByEmail env.roster studentEmail with
  | none => ⟨none, false, [], .error ("Student email not found".data)⟩
  | some student =>
    if student.Drive_Folder_ID = [] then
      ⟨none, false, [], .error ("Drive_Folder_ID missing".data)⟩
    else
      let promptFileName := if jsTrim promptFileName = [] then
          "HW_".data ++ (if hwId = [] then "Unknown-".data ++ env.today else hwId)
            ++ "_prompt.txt".data
        else promptFileName
      let fullPrompt := jsTrim basePromptText
        ++ "\n\n---\nStudent background / Life & Lifestyle\n".data
        ++ jsTrim (if student.LifeStyle = [] then "No profile data on record.".data
                   else student.LifeStyle)
      if ¬env.createFileOk student.Drive_Folder_ID promptFileName then
        ⟨none, false, [], .error ("Failed to create prompt file".data)⟩
      else
        match env.appendErr with
        | none =>
          ⟨some (student.Drive_Folder_ID, promptFileName, fullPrompt), false,
            [⟨student.Student_ID, student.Name, student.Email, hwId, env.newFileId,
              env.token, env.nowIso, [], "Active".data, 0⟩],
            .ok env.token⟩
        | some msg =>
          ⟨some (student.Drive_Folder_ID, promptFileName, fullPrompt), env.trashOk,
            [], .error ("Failed to append ledger row: ".data ++ msg)⟩

/-- `array.join(', ')`. -/
def joinComma : List (List Char) → List Char
  | [] => []
  | [x] => x
  | x :: xs => x ++ ", ".data ++ joinComma xs

/-- The fixed text of the coaching prompt before the transcript list. -/
def promptPre : List Char :=
  "You are a GPT called Homework Coach.\nTranscript files for this session: ".data

/-- The fixed text of the coaching prompt after the transcript list. -/
def promptSuf : List Char :=
  ".\nThe exact grammar topic being studied might be mentioned directly in the conversation. Search for this to identify what it is, but if more than one grammar topic or grammar theme is mentioned, then surmize the grammar topic being taught, judging from repeated sentence structures being practiced and especially how the teacher introduces the topic and corrects the student. Carefully analyze the student\u2019s communications and reactions to the teacher\u2019s instructions to find instances in which the grammar being taught was not well comprehended by the student and based on this analysis, choosing only one grammatical theme to pursue and formulate all ten questions and dialogue around this one theme for this homework session. In your greeting, explicitly state the grammar topic being covered in the homework, followed by a very brief situation based on the student\x27s life and lifestyle data or a relevant comment from the student transcript to provide context showing how the grammar structure can be productively applied. Ask up to 10 personalized questions based on the conclusions you reached in your analysis of the transcript and incorporate the student background provided below. Show the problem/question number (i) for each question asked. After student answers, provide an instant, short and empathetic evaluation of the student\x27s answer, explaining clearly but briefly why the student is right or what needs work, then in the same output, move on to the next student prompt, with the next number (i+1) displayed for reference. Focus on reinforcing weak points with this grammar topic identified in the transcript(s), being sure to add professional and personal details from the transcript and the student information below to keep the output relevant to the student\u2019s profession, personal characteristics and world view. General behavior when interacting with the student: *Do not prompt the student to SPEAK or LISTEN to you. You will be interacting by text chat only so speaking and listening is not possible. *Be friendly and empathetic but brief in your responses. *When you\u2019ve finished coaching the student through the 10 homework problems, it is essential to bring the conversation to a warm and polite close by instructing the student to click the button that says \u2018Done \u2705 Submit Homework\u2019.".data

/-- `basePrompt` of `assignHomework`: the coaching-prompt template with the
joined transcript list embedded. -/
def basePromptTemplate (transcriptList : List Char) : List Char :=
  promptPre ++ transcriptList ++ promptSuf

/-- The four spellings of `.mp4` admitted under the `/i` flag. -/
def mp4Variants : List (List Char) :=
  [['.', 'm', 'p', '4'], ['.', 'm', 'P', '4'], ['.', 'M', 'p', '4'],
   ['.', 'M', 'P', '4']]

/-- Case-insensitive `\.mp4$` on exactly four characters. -/
def extMp4CI (l : List Char) : Bool := mp4Variants.contains l

/-- `/_(\d{4}-\d{2}-\d{2})_([A-Za-z0-9_-]{10})\.txt$/i` applied by
`assignHomework` to the first transcript name.  The pattern has fixed length
26 and is anchored at the end, so it matches exactly when the last 26
characters have the shape `_<date>_<frag>.txt`. -/
def promptTailMatch (s : List Char) : Option (List Char × List Char) :=
  if s.length ≥ 26 then
    match s.drop (s.length - 26) with
    | '_' :: rest =>
      let d := rest.take 10
      match rest.drop 10 with
      | '_' :: rest3 =>
        if dateChars d && (rest3.take 10).all idFragChar && extTxtCI (rest3.drop 10)
        then some (d, rest3.take 10) else none
      | _ => none
    | _ => none
  else none

/-- Effects and outcome of one `assignHomework` call. -/
structure AssignResult where
  fileCreated : Option (List Char × List Char × List Char)
  fileTrashed : Bool
  rows : List HWRow
  hwId : List Char
  basePrompt : List Char
  emailsSent : Nat
  result : Except (List Char) Unit
deriving DecidableEq

/-- `assignHomework(studentEmail, transcriptFileNames)` (part_000 1024-1060):
derive the prompt filename from the first transcript (or fall back), compute
`hwId` from the roster row and today's date, build the prompt around the
joined transcript list, save prompt + ledger row, then (portal configured)
send one notification; a mail failure is caught and only logged. -/
def assignHomework (env : HPEnv) (studentEmail : List Char)
    (transcriptFileNames : List (List Char)) : AssignResult :=
  match transcriptFileNames with
  | [] => ⟨none, false, [], [], [], 0, .error "Missing parameters for assignHomework.".data⟩
  | firstTranscriptName :: _ =>
    if studentEmail = [] then
      ⟨none, false, [], [], [], 0, .error "Missing parameters for assignHomework.".data⟩
    else
      match rosterFindByEmail env.roster studentEmail with
      | none => ⟨none, false, [], [], [], 0, .error "Student lookup failed".data⟩
      | some student =>
        let promptFileName := match promptTailMatch firstTranscriptName with
          | some (d, frag) => "prompt_".data ++ d ++ '_' :: frag ++ ".txt".data
          | none => "HW_".data ++ hwIdFor student.RosterRowIndex env.today
              ++ "_prompt.txt".data
        let hwId := hwIdFor student.RosterRowIndex env.today
        let basePrompt := basePromptTemplate (joinComma transcriptFileNames)
        let save := saveHomeworkPrompt env studentEmail hwId basePrompt promptFileName
        match save.result with
        | .error e =>
          ⟨save.fileCreated, save.fileTrashed, save.rows, hwId, basePrompt, 0, .error e⟩
        | .ok _ =>
          match env.portalBaseUrl with
          | none =>
            ⟨save.fileCreated, save.fileTrashed, save.rows, hwId, basePrompt, 0, .ok ()⟩
          | some _ =>
            ⟨save.fileCreated, save.fileTrashed, save.rows, hwId, basePrompt,
              if env.mailOk then 1 else 0, .ok ()⟩

/-- V9 `saveHomeworkPrompt` (Code.js 409-443): as the V8 version but without
the fallback prompt filename — the provided name is used as is. -/
def saveHomeworkPromptV9 (env : HPEnv)
    (studentEmail hwId basePromptText promptFileName : List Char) : SaveResult :=
  match rosterFindByEmail env.roster studentEmail with
  | none => ⟨none, false, [], .error ("Student email not found".data)⟩
  | some student =>
    if student.Drive_Folder_ID = [] then
      ⟨none, false, [], .error ("Drive_Folder_ID missing".data)⟩
    else
      let fullPrompt := jsTrim basePromptText
        ++ "\n\n---\nStudent background / Life & Lifestyle\n".data
        ++ jsTrim (if student.LifeStyle = [] then "No profile data on record.".data
                   else student.LifeStyle)
      if ¬env.createFileOk student.Drive_Folder_ID promptFileName then
        ⟨none, false, [], .error ("Failed to create prompt file".data)⟩
      else
        match env.appendErr with
        | none =>
          ⟨some (student.Drive_Folder_ID, promptFileName, fullPrompt), false,
            [⟨student.Student_ID, student.Name, student.Email, hwId, env.newFileId,
              env.token, env.nowIso, [], "Active".data, 0⟩],
            .ok env.token⟩
        | some msg =>
          ⟨some (student.Drive_Folder_ID, promptFileName, fullPrompt), env.trashOk,
            [], .error ("Failed to append ledger row: ".data ++ msg)⟩

/-- V9 `assignHomework` (Code.js 445-480): as the V8 version except the prompt
filename embeds the standardized student name (with `prompt_<first>` as the
fallback), calling the V9 `saveHomeworkPrompt`. -/
def assignHomeworkV9 (env : HPEnv) (studentEmail : List Char)
    (transcriptFileNames : List (List Char)) : AssignResult :=
  match transcriptFileNames with
  | [] => ⟨none, false, [], [], [], 0, .error "Missing parameters for assignHomework.".data⟩
  | firstTranscriptName :: _ =>
    if studentEmail = [] then
      ⟨none, false, [], [], [], 0, .error "Missing parameters for assignHomework.".data⟩
    else
      match rosterFindByEmail env.roster studentEmail with
      | none => ⟨none, false, [], [], [], 0, .error "Student lookup failed".data⟩
      | some student =>
        let promptFileName := match promptTailMatch firstTranscriptName with
          | some (d, frag) => "prompt_".data ++ wsRunsToUnderscore student.Name
              ++ '_' :: d ++ '_' :: frag ++ ".txt".data
          | none => "prompt_".data ++ firstTranscriptName
        let hwId := hwIdFor student.RosterRowIndex env.today
        let basePrompt := basePromptTemplate (joinComma transcriptFileNames)
        let save := saveHomeworkPromptV9 env studentEmail hwId basePrompt promptFileName
        match save.result with
        | .error e =>
          ⟨save.fileCreated, save.fileTrashed, save.rows, hwId, basePrompt, 0, .error e⟩
        | .ok _ =>
          match env.portalBaseUrl with
          | none =>
            ⟨save.fileCreated, save.fileTrashed, save.rows, hwId, basePrompt, 0, .ok ()⟩
          | some _ =>
            ⟨save.fileCreated, save.fileTrashed, save.rows, hwId, basePrompt,
              if env.mailOk then 1 else 0, .ok ()⟩

/-! ## The Job Status Poller -/

/-- The terminal statuses of the Job Status Poller (part_000 435-440). -/
def terminalStatuses : List (List Char) :=
  ["done", "rejected", "processing_error", "gcs_error", "transcript_fetch_error",
   "submission_error", "submission_exception", "cloudrun_error", "cloudrun_no_jobid",
   "not_found", "error_fetching_status", "exception_fetching_status",
   "error_parsing_response", "error_unauthorized", "error_missing_jobid",
   "gcs_move_error"].map String.data

/-- The active statuses polled by the Job Status Poller (part_000 441). -/
def submittedStatuses : List (List Char) :=
  ["submitted", "running", "processing"].map String.data

/-- One data row of the `Jobs` tracking sheet (File Name, Job ID, Status). -/
structure JobRow where
  fileName : List Char
  jobId : List Char
  status : List Char
deriving DecidableEq

/-- External outcomes consulted while monitoring one row: the status poll
(`getJobStatus`, whose exceptions the caller maps to
`exception_fetching_status`), and the two completion-handling calls, each
`none` on success and `some message` when it throws. -/
structure MonitorEnv where
  getStatus : List Char → Except (List Char) (List Char)
  handleErr : Option (List Char)
  moveErr : Option (List Char)

/-- What one loop iteration of `monitorTranscriptionJobs` does to its row:
the successive values written to the row's status cell (each followed by a
flush in the source), and how many times the completion block
(`handleCompletedJob` + `moveFileInGCS`) was entered. -/
structure RowStepResult where
  writes : List (List Char)
  completionCalls : Nat
deriving DecidableEq

/-- `String.includes` on lowercased text. -/
def containsSub (hay needle : List Char) : Bool := decide (needle <:+: hay)

/-- One iteration of the row loop of `monitorTranscriptionJobs`
(part_000 444-511). -/
def monitorRowStep (env : MonitorEnv) (row : JobRow) : RowStepResult :=
  let fileName := jsTrim row.fileName
  let jobId := jsTrim row.jobId
  let localStatus := toLowerList (jsTrim row.status)
  if fileName = [] ∨ localStatus ∈ terminalStatuses then ⟨[], 0⟩
  else if (localStatus ∈ submittedStatuses ∨ localStatus = "processing_transcript".data)
      ∧ jobId = [] then
    if localStatus ≠ "error_missing_jobid".data then ⟨["error_missing_jobid".data], 0⟩
    else ⟨[], 0⟩
  else if ¬(localStatus ∈ submittedStatuses ∨ localStatus = "processing_transcript".data)
    then ⟨[], 0⟩
  else
    let newStatus := match env.getStatus jobId with
      | .ok s => s
      | .error _ => "exception_fetching_status".data
    let newStatusLower := toLowerList newStatus
    if newStatusLower = "done".data then
      if localStatus = "done".data then ⟨[], 0⟩
      else
        let errMsg := match env.handleErr with
          | some m => some m
          | none => env.moveErr
        let finalStatus := match errMsg with
          | none => "done".data
          | some m =>
            if containsSub (toLowerList m) "transcript".data then
              "transcript_fetch_error".data
            else if containsSub (toLowerList m) "gcs upload".data then "gcs_error".data
            else if containsSub (toLowerList m) "movegcs".data then "gcs_move_error".data
            else "processing_error".data
        ⟨["processing_transcript".data, finalStatus], 1⟩
    else if newStatusLower = "rate_limited".data then ⟨[], 0⟩
    else if newStatusLower ∈ terminalStatuses then
      if newStatusLower ≠ localStatus then ⟨[newStatus], 0⟩ else ⟨[], 0⟩
    else if newStatusLower ≠ localStatus ∧ newStatus ≠ [] then ⟨[newStatus], 0⟩
    else ⟨[], 0⟩

/-- The row after a pass: the last value written to the status cell, if any. -/
def applyRowWrites (row : JobRow) (writes : List (List Char)) : JobRow :=
  match writes.getLast? with
  | some s => { row with status := s }
  | none => row

/-- A full pass of `monitorTranscriptionJobs` over the data rows: the row
loop touches only the current row's cells, so a pass is the per-row step
mapped over the sheet. -/
def monitorPass (env : MonitorEnv) (rows : List JobRow) : List RowStepResult :=
  rows.map (monitorRowStep env)

/-! ## The Job Submission Adapter -/

/-- The JSON view of a Cloud Run response body: unparseable, or an object
with an optional string `job_id` field (absent/non-string collapsed to
`none`) and an optional `message` field. -/
inductive BodyShape where
  | unparseable
  | parsed (jobId : Option (List Char)) (message : Option (List Char))
deriving DecidableEq

/-- Outcome of `UrlFetchApp.fetch` on the Cloud Run URL: a network-level
exception, or an HTTP response with status and body. -/
inductive FetchOutcome where
  | netError (msg : List Char)
  | resp (status : Nat) (body : BodyShape)
deriving DecidableEq

/-- V8 `sendFileInfoToCloudRun` (part_000 286-342), the Speechmatics
submission: returns the trimmed `job_id` on a parseable 200 response with a
nonempty string `job_id`, `null` on every failure; throws only when
`CLOUD_RUN_URL` is missing. -/
def sendFileInfoToCloudRun (urlSet : Bool) (outcome : FetchOutcome) :
    Except (List Char) (Option (List Char)) :=
  if ¬urlSet then .error "CLOUD_RUN_URL property missing".data
  else match outcome with
    | .netError _ => .ok none
    | .resp status body =>
      if status ≠ 200 then .ok none
      else match body with
        | .unparseable => .ok none
        | .parsed jobId _ =>
          match jobId with
          | some s => if jsTrim s ≠ [] then .ok (some (jsTrim s)) else .ok none
          | none => .ok none

/-- V9 `sendFileInfoToCloudRun` (Code.js 184-227), the Gemini-workflow
variant: `true` on the one recognized 200 body, an escalated error for every
other outcome; the unexpected-200-message throw inside the parse `try` is
caught by `catch (parseError)` and resurfaces as the parse-failure error. -/
def sendFileInfoToCloudRunV9 (urlSet : Bool) (outcome : FetchOutcome) :
    Except (List Char) Bool :=
  if ¬urlSet then .error "CLOUD_RUN_URL property missing".data
  else match outcome with
    | .netError msg => .error ("Network-level error calling Cloud Run: ".data ++ msg)
    | .resp status body =>
      if status = 200 then
        match body with
        | .unparseable => .error "Failed to parse Cloud Run success response.".data
        | .parsed _ message =>
          if message = some "File saved to /incoming".data then .ok true
          else .error "Failed to parse Cloud Run success response.".data
      else .error ("Cloud Run returned non-200 status: ".data ++ (Nat.repr status).data)

/-- Modelled from the claim's wording (refinement side): the submission
contract — the trimmed job identifier exactly on a 200 response carrying a
nonempty string `job_id`, null on any failure. -/
def cloudRunContract (o : FetchOutcome) : Option (List Char) :=
  match o with
  | .resp 200 (.parsed (some s) _) => if jsTrim s ≠ [] then some (jsTrim s) else none
  | _ => none

/-! ## The Transcript Distribution Engine -/

/-- A roster-map entry of `importTranscriptsToDrive`: the value stored under
a normalized student name. -/
structure RosterEntry where
  folderId : List Char
  originalName : List Char
  email : List Char
deriving DecidableEq

/-- `Map.get`: first entry with the exact key. -/
def lookupMap (m : List (List Char × RosterEntry)) (k : List Char) :
    Option RosterEntry :=
  match m with
  | [] => none
  | (k2, v) :: rest => if k2 = k then some v else lookupMap rest k

/-- External world consulted by the transcript-import scan. -/
structure ImportEnv where
  rosterMap : List (List Char × RosterEntry)
  fetchContent : List Char → Option (List Char)
  folderOk : List Char → Bool
  folderHasFile : List Char → List Char → Bool
  createOk : List Char → List Char → Bool

/-- Accumulated state of the transcript-import scan: the counters of the
summary log line, the Drive files created, and the per-student batch map
(`importedFilesByStudent`, insertion-ordered). -/
structure ScanState where
  importCount : Nat
  errorCount : Nat
  skippedExistsCount : Nat
  skippedNoMatchCount : Nat
  skippedAsteriskCount : Nat
  createdFiles : List (List Char × List Char × List Char)
  importedFilesByStudent : List (List Char × List (List Char))
deriving DecidableEq

/-- `importedFilesByStudent.get(email).push(name)` with map-entry creation. -/
def pushImported (m : List (List Char × List (List Char)))
    (email fname : List Char) : List (List Char × List (List Char)) :=
  match m with
  | [] => [(email, [fname])]
  | (k, v) :: rest =>
    if k = email then (k, v ++ [fname]) :: rest
    else (k, v) :: pushImported rest email fname

/-- One iteration of the transcript loop of `importTranscriptsToDrive`
(part_000 764-822) on a GCS object name: path checks, the strict transcript
regex, the asterisk escape, name normalization, roster lookup, content
fetch, the exists-skip, and on success one created file plus one batch-map
push.  Throws from fetch / folder access / file creation are the per-item
`catch`, counted in `errorCount`. -/
def importScanStep (env : ImportEnv) (st : ScanState) (objectName : List Char) :
    ScanState :=
  if objectName = [] then { st with errorCount := st.errorCount + 1 }
  else if ¬("transcripts/".data <+: objectName) ∨ objectName.getLast? = some '/' ∨
      '/' ∈ objectName.drop 12 then st
  else
    let fileNameRelative := objectName.drop 12
    if fileNameRelative = [] then st
    else match transcriptMatch fileNameRelative with
    | none => st
    | some (g1, _) =>
      if '*' ∈ g1 then
        { st with skippedAsteriskCount := st.skippedAsteriskCount + 1 }
      else
        let studentNameProcessed := jsTrim (toLowerList (collapseWs
          (underscoresToSpaces (g1.map (fun c => if warningChar c then ' ' else c)))))
        if studentNameProcessed = [] then
          { st with skippedNoMatchCount := st.skippedNoMatchCount + 1 }
        else match lookupMap env.rosterMap studentNameProcessed with
        | none => { st with skippedNoMatchCount := st.skippedNoMatchCount + 1 }
        | some entry =>
          if entry.email = [] then st
          else match env.fetchContent objectName with
          | none => { st with errorCount := st.errorCount + 1 }
          | some content =>
            if ¬env.folderOk entry.folderId then
              { st with errorCount := st.errorCount + 1 }
            else if env.folderHasFile entry.folderId fileNameRelative then
              { st with skippedExistsCount := st.skippedExistsCount + 1 }
            else if ¬env.createOk entry.folderId fileNameRelative then
              { st with errorCount := st.errorCount + 1 }
            else
              { st with
                  importCount := st.importCount + 1,
                  createdFiles := st.createdFiles
                    ++ [(entry.folderId, fileNameRelative, content)],
                  importedFilesByStudent :=
                    pushImported st.importedFilesByStudent entry.email
                      fileNameRelative }

/-- The initial scan state. -/
def initScanState : ScanState := ⟨0, 0, 0, 0, 0, [], []⟩

/-- The whole GCS scan of `importTranscriptsToDrive`. -/
def runImportScan (env : ImportEnv) (transcripts : List (List Char)) : ScanState :=
  transcripts.foldl (importScanStep env) initScanState

/-- Per-entry outcome of the homework-assignment loop at the end of
`importTranscriptsToDrive`. -/
structure EntryOutcome where
  email : List Char
  rows : List HWRow
  emailsSent : Nat
  basePrompt : List Char
deriving DecidableEq

/-- One guarded `assignHomework` call of the assignment loop
(part_000 828-839), errors caught per entry. -/
def assignOutcome (env : HPEnv) (p : List Char × List (List Char)) : EntryOutcome :=
  if p.2 ≠ [] then
    let r := assignHomework env p.1 p.2
    ⟨p.1, r.rows, r.emailsSent, r.basePrompt⟩
  else ⟨p.1, [], 0, []⟩

/-- The assignment loop at the end of `importTranscriptsToDrive`: one guarded
call per batch-map entry. -/
def runAssignLoop (env : HPEnv)
    (entries : List (List Char × List (List Char))) : List EntryOutcome :=
  entries.map (assignOutcome env)

/-! ## The Discovery and Dedup Engine -/

/-- A Drive file as seen by `processNewRecordings`. -/
structure DriveFile where
  name : List Char
  id : List Char
  mime : List Char
deriving DecidableEq

/-- One data row of the `Jobs` tracking sheet as appended by
`processNewRecordings` (its final state after the in-place status update). -/
structure TrackRow where
  fileName : List Char
  jobId : List Char
  status : List Char
deriving DecidableEq

/-- Outcome of the Cloud Run call for one file: a thrown exception, or a
returned (possibly null) job id. -/
inductive CRResult where
  | throws
  | ret (jobId : Option (List Char))
deriving DecidableEq

/-- External world of `processNewRecordings`: whether `file.setName` throws
and what the Cloud Run call does, both keyed by the file id. -/
structure ProcessEnv where
  renameFails : List Char → Bool
  cloudRun : List Char → CRResult

/-- Tail `_(\d{4}-\d{2}-\d{2})_[A-Za-z0-9_-]{10}\.mp4$` (case-insensitive)
of `alreadyRenamedRegex`. -/
def alreadyRenamedTail (rest : List Char) : Bool :=
  match rest with
  | '_' :: cs =>
    dateChars (cs.take 10) &&
      (match cs.drop 10 with
       | '_' :: fr => (fr.take 10).all idFragChar && fr.length = 14
           && extMp4CI (fr.drop 10)
       | _ => false)
  | _ => false

/-- `alreadyRenamedRegex.test`: some split with a nonempty name prefix
followed by the canonical tail. -/
def alreadyRenamedTest : List Char → Bool
  | [] => false
  | _ :: rest => alreadyRenamedTail rest || alreadyRenamedTest rest

/-- Mutable state threaded through the file loop of `processNewRecordings`:
the `existingDataSet`, the net ledger rows appended this run, the error
counter, and the files (with any renames applied). -/
structure ProcState where
  existing : List (List Char)
  rowsAppended : List TrackRow
  errorCount : Nat
  filesOut : List DriveFile
deriving DecidableEq

/-- One iteration of the file loop of `processNewRecordings`
(part_000 169-269): mime filter, dedup against `existingDataSet` (raw name,
the vacuous already-renamed re-check, and the canonical target name), parse,
rename, append a placeholder row, call Cloud Run, and update the row to its
final status.  The appended row is recorded in its final state. -/
def processOneFile (env : ProcessEnv) (st : ProcState) (file : DriveFile) :
    ProcState :=
  if ¬("video/".data <+: file.mime) then
    { st with filesOut := st.filesOut ++ [file] }
  else if jsTrim file.name ∈ st.existing ∨
      (alreadyRenamedTest file.name ∧ jsTrim file.name ∈ st.existing) then
    { st with filesOut := st.filesOut ++ [file] }
  else match extractStudentInfoFromFilename file.name with
  | none => { st with filesOut := st.filesOut ++ [file] }
  | some info =>
    let newFileName := canonicalName info.studentName info.classDate file.id
    if newFileName ∈ st.existing then
      { st with filesOut := st.filesOut ++ [file] }
    else if env.renameFails file.id then
      { st with errorCount := st.errorCount + 1, filesOut := st.filesOut ++ [file] }
    else
      let crJob : Option (List Char) := match env.cloudRun file.id with
        | .throws => none
        | .ret j => j
      let crThrew : Bool := env.cloudRun file.id = .throws
      let finalStatus := if crThrew then "cloudrun_error".data
        else if crJob.getD [] ≠ [] then "submitted".data
        else "cloudrun_no_jobid".data
      { existing := st.existing ++ [newFileName]
        rowsAppended := st.rowsAppended ++ [⟨newFileName, crJob.getD [], finalStatus⟩]
        errorCount := st.errorCount + (if crThrew then 1 else 0)
        filesOut := st.filesOut ++ [{ file with name := newFileName }] }

/-- The `existingDataSet` built from the sheet before scanning: trimmed
first-column values, empty strings dropped. -/
def existingFrom (ledger : List TrackRow) : List (List Char) :=
  (ledger.map (fun r => jsTrim r.fileName)).filter (fun s => s ≠ [])

/-- A whole run of `processNewRecordings` over the folder's files against
the current tracking-sheet rows. -/
def processNewRecordings (env : ProcessEnv) (files : List DriveFile)
    (ledger : List TrackRow) : ProcState :=
  files.foldl (processOneFile env) ⟨existingFrom ledger, [], 0, []⟩

/-- No two adjacent characters are both JavaScript whitespace. -/
def noWsPair : List Char → Bool
  | c1 :: c2 :: t => !(jsWs c1 && jsWs c2) && noWsPair (c2 :: t)
  | _ => true

/-- Does `l` contain a ten-character window matching `\d{4}-\d{2}-\d{2}`? -/
def hasDateSub (l : List Char) : Bool :=
  (List.range l.length).any (fun j => dateChars ((l.drop j).take 10))

/-- A file needing no action against the set `S`: not a video, already in
the set by raw trimmed name, unparsable, canonical target already present,
or rename doomed to fail. -/
def Settled (env : ProcessEnv) (S : List (List Char)) (f : DriveFile) : Prop :=
  ¬("video/".data <+: f.mime)
  ∨ jsTrim f.name ∈ S
  ∨ extractStudentInfoFromFilename f.name = none
  ∨ (∃ info, extractStudentInfoFromFilename f.name = some info ∧
      (canonicalName info.studentName info.classDate f.id ∈ S
       ∨ env.renameFails f.id = true))

/-- The loop invariant of `processNewRecordings`: the running set is the
initial ledger set plus exactly the names of the rows appended so far, each
appended name is trim-fixed, nonempty and fresh, and every file already
passed is settled against the running set. -/
def ProcInv (env : ProcessEnv) (base : List (List Char)) (st : ProcState) : Prop :=
  st.existing = base ++ st.rowsAppended.map (fun r => r.fileName)
  ∧ (∀ r ∈ st.rowsAppended, jsTrim r.fileName = r.fileName ∧ r.fileName ≠ [])
  ∧ (∀ f ∈ st.filesOut, Settled env st.existing f)
  ∧ (st.rowsAppended.map (fun r => r.fileName)).Nodup

/-! ### Facts about the date pattern and separators -/

lemma dateChars_cases {l : List Char} (h : dateChars l = true) :
    ∃ y1 y2 y3 y4 m1 m2 d1 d2,
      l = [y1, y2, y3, y4, '-', m1, m2, '-', d1, d2] ∧
      y1.isDigit = true ∧ y2.isDigit = true ∧ y3.isDigit = true ∧
      y4.isDigit = true ∧ m1.isDigit = true ∧ m2.isDigit = true ∧
      d1.isDigit = true ∧ d2.isDigit = true := by
  rcases l with _ | ⟨a, l⟩; · simp [dateChars] at h
  rcases l with _ | ⟨b, l⟩; · simp [dateChars] at h
  rcases l with _ | ⟨c, l⟩; · simp [dateChars] at h
  rcases l with _ | ⟨d, l⟩; · simp [dateChars] at h
  rcases l with _ | ⟨e, l⟩; · simp [dateChars] at h
  rcases l with _ | ⟨f, l⟩; · simp [dateChars] at h
  rcases l with _ | ⟨g, l⟩; · simp [dateChars] at h
  rcases l with _ | ⟨k, l⟩; · simp [dateChars] at h
  rcases l with _ | ⟨i, l⟩; · simp [dateChars] at h
  rcases l with _ | ⟨j, l⟩; · simp [dateChars] at h
  rcases l with _ | ⟨x, l⟩
  · simp only [dateChars, Bool.and_eq_true, decide_eq_true_eq] at h
    obtain ⟨⟨⟨⟨⟨⟨⟨⟨⟨h1, h2⟩, h3⟩, h4⟩, h5⟩, h6⟩, h7⟩, h8⟩, h9⟩, h10⟩ := h
    subst h5 h8
    exact ⟨a, b, c, d, f, g, i, j, rfl, h1, h2, h3, h4, h6, h7, h9, h10⟩
  · simp [dateChars] at h

lemma dateChars_ten {l : List Char} (h : dateChars l = true) : l.length = 10 := by
  obtain ⟨y1, y2, y3, y4, m1, m2, d1, d2, rfl, -⟩ := dateChars_cases h
  rfl

lemma isSepChar_eq_false_of_isDigit {c : Char} (h : c.isDigit = true) :
    isSepChar c = false := by
  cases hs : isSepChar c
  · rfl
  · exfalso
    simp only [isSepChar, Bool.or_eq_true, decide_eq_true_eq] at hs
    rcases hs with (rfl | rfl) | rfl <;> exact absurd h (by decide)

lemma dateChars_head {l : List Char} (h : dateChars l = true) :
    ∃ c t, l = c :: t ∧ c.isDigit = true := by
  obtain ⟨y1, y2, y3, y4, m1, m2, d1, d2, rfl, h1, -⟩ := dateChars_cases h
  exact ⟨y1, _, rfl, h1⟩

lemma dateChars_mem {l : List Char} (h : dateChars l = true) :
    ∀ c ∈ l, (c.isDigit || decide (c = '-')) = true := by
  obtain ⟨y1, y2, y3, y4, m1, m2, d1, d2, rfl, h1, h2, h3, h4, h5, h6, h7, h8⟩ :=
    dateChars_cases h
  intro c hc
  simp only [List.mem_cons, List.not_mem_nil, or_false] at hc
  rcases hc with rfl | rfl | rfl | rfl | rfl | rfl | rfl | rfl | rfl | rfl <;>
    simp [*]

lemma dateChars_eq_false_of_underscore {l : List Char} (h : '_' ∈ l) :
    dateChars l = false := by
  cases hd : dateChars l
  · rfl
  · exact absurd (dateChars_mem hd '_' h) (by decide)

lemma dropWhile_eq_drop_length {α : Type} (p : α → Bool) (l : List α) :
    l.dropWhile p = l.drop (l.takeWhile p).length := by
  induction l with
  | nil => rfl
  | cons a t ih =>
    by_cases h : p a = true
    · simp [List.dropWhile_cons, List.takeWhile_cons, h, ih]
    · simp [List.dropWhile_cons, List.takeWhile_cons, h]

/-! ### The lazy search of `meetRegex` on a canonical split -/

/-- Helper: the tail of `meetRegex` succeeds exactly at the canonical boundary
`"_" ++ date ++ suffix`. -/
lemma meetTail_boundary {date : List Char} (hdate : dateChars date = true)
    (suffix : List Char) :
    meetTail ('_' :: (date ++ suffix)) = some date := by
  obtain ⟨c0, t0, hd0, hdig⟩ := dateChars_head hdate
  have hsep0 : isSepChar c0 = false := isSepChar_eq_false_of_isDigit hdig
  simp only [meetTail]
  rw [if_pos (by decide)]
  have hdrop : ('_' :: (date ++ suffix)).dropWhile isSepChar = date ++ suffix := by
    rw [List.dropWhile_cons, if_pos (by decide), hd0, List.cons_append,
      List.dropWhile_cons, if_neg (by simp [hsep0]), ← List.cons_append, ← hd0]
  rw [hdrop, List.take_left' (dateChars_ten hdate), if_pos hdate]

/-- On `tail ++ "_" ++ date ++ suffix` where `tail` does not end in a separator
and contains no ten-character window shaped like `\d{4}-\d{2}-\d{2}`, the lazy
group of `meetRegex` stops exactly at the boundary: the captures are
`(tail, date)` (prefixed by the accumulator). -/
lemma meetAux_canonical {date : List Char} (hdate : dateChars date = true)
    (suffix : List Char) :
    ∀ (tail acc : List Char), tail ≠ [] →
      (∀ c, tail.getLast? = some c → isSepChar c = false) →
      (∀ j, dateChars ((tail.drop j).take 10) = false) →
      meetAux acc (tail ++ '_' :: (date ++ suffix)) = some (acc ++ tail, date) := by
  intro tail
  induction tail with
  | nil => intro acc h; exact absurd rfl h
  | cons c t ih =>
    intro acc _ hlast hwin
    cases t with
    | nil =>
      have hb : (c :: ([] : List Char)) ++ '_' :: (date ++ suffix)
          = c :: '_' :: (date ++ suffix) := by simp
      rw [hb, meetAux, meetTail_boundary hdate suffix]
    | cons c2 t2 =>
      have hstep : meetTail (c2 :: (t2 ++ '_' :: (date ++ suffix))) = none := by
        rw [show c2 :: (t2 ++ '_' :: (date ++ suffix))
            = (c2 :: t2) ++ '_' :: (date ++ suffix) by simp]
        cases hsep : isSepChar c2
        · simp only [meetTail, List.cons_append]
          rw [if_neg (by simp [hsep])]
        · -- separator run inside the name part: the ten-character window that
          -- follows it is either inside `tail` (excluded by `hwin`) or crosses
          -- the boundary underscore (not a date character).
          have hlastmem : (c2 :: t2).getLast (by simp) ∈ c2 :: t2 :=
            List.getLast_mem _
          have hlastns : isSepChar ((c2 :: t2).getLast (by simp)) = false := by
            apply hlast
            rw [List.getLast?_cons_cons]
            exact List.getLast?_eq_getLast _ (by simp)
          have hM : (c2 :: t2).dropWhile isSepChar ≠ [] := by
            intro hnil
            rw [List.dropWhile_eq_nil_iff] at hnil
            exact absurd (hnil _ hlastmem) (by simp [hlastns])
          simp only [meetTail, List.cons_append]
          rw [if_pos (by simpa using hsep)]
          have hsplit : ((c2 :: t2) ++ '_' :: (date ++ suffix)).dropWhile isSepChar
              = (c2 :: t2).dropWhile isSepChar ++ '_' :: (date ++ suffix) := by
            rw [List.dropWhile_append, if_neg (by simpa [List.isEmpty_iff] using hM)]
          rw [← List.cons_append, hsplit]
          set M := (c2 :: t2).dropWhile isSepChar with hMdef
          have hMdrop : M = (c2 :: t2).drop ((c2 :: t2).takeWhile isSepChar).length := by
            rw [hMdef, dropWhile_eq_drop_length]
          rcases Nat.lt_or_ge M.length 10 with hlen | hlen
          · have humem : '_' ∈ (M ++ '_' :: (date ++ suffix)).take 10 := by
              rw [List.take_append_eq_append_take, List.take_of_length_le (Nat.le_of_lt hlen)]
              have : 1 ≤ 10 - M.length := by omega
              rcases Nat.exists_eq_add_of_le this with ⟨m, hm⟩
              rw [List.mem_append]
              right
              rw [show 10 - M.length = 1 + m from hm, List.take_add]
              simp
            simp [dateChars_eq_false_of_underscore humem]
          · have htake : (M ++ '_' :: (date ++ suffix)).take 10 = M.take 10 := by
              rw [List.take_append_eq_append_take, Nat.sub_eq_zero_of_le hlen,
                List.take_zero, List.append_nil]
            have hfalse : dateChars ((M ++ '_' :: (date ++ suffix)).take 10) = false := by
              rw [htake, hMdrop]
              have hw := hwin (((c2 :: t2).takeWhile isSepChar).length + 1)
              rwa [List.drop_succ_cons] at hw
            simp [hfalse]
      rw [show (c :: c2 :: t2) ++ '_' :: (date ++ suffix)
          = c :: (c2 :: (t2 ++ '_' :: (date ++ suffix))) by simp, meetAux, hstep]
      have := ih (acc ++ [c]) (by simp)
        (fun x hx => hlast x (by rw [List.getLast?_cons_cons]; exact hx))
        (fun j => by simpa using hwin (j + 1))
      simpa [List.append_assoc] using this

/-! ### Whitespace- and character-class facts -/

lemma jsWs_enum {c : Char} (h : jsWs c = true) : c ∈ wsChars := by
  simpa [jsWs, List.contains_eq_any_beq] using h

lemma jsWs_facts {c : Char} (h : jsWs c = true) :
    idFragChar c = false ∧ c.isDigit = false ∧ specialChar c = false ∧
    c ≠ '/' ∧ c ≠ '_' ∧ (isSepChar c = true → c = ' ') := by
  have hm := jsWs_enum h
  simp only [wsChars, List.mem_cons, List.not_mem_nil, or_false] at hm
  rcases hm with rfl | rfl | rfl | rfl | rfl | rfl | rfl | rfl | rfl | rfl | rfl | rfl | rfl | rfl | rfl | rfl | rfl | rfl | rfl | rfl | rfl | rfl | rfl | rfl | rfl <;> exact ⟨by decide, by decide, by decide, by decide, by decide, by decide⟩

/-! ### Membership through the cleaning pipeline -/

lemma mem_of_mem_jsTrim {l : List Char} {c : Char} (h : c ∈ jsTrim l) : c ∈ l := by
  simp only [jsTrim, List.mem_reverse] at h
  exact (List.dropWhile_sublist jsWs).mem ((List.mem_reverse).1 ((List.dropWhile_sublist jsWs).mem h))

lemma mem_of_mem_stripTrailing {l : List Char} {c : Char}
    (h : c ∈ stripTrailingSpaceDash l) : c ∈ l := by
  simp only [stripTrailingSpaceDash, List.mem_reverse] at h
  exact (List.mem_reverse).1 ((List.dropWhile_sublist _).mem h)

lemma mem_collapseWsAux {c : Char} :
    ∀ {b : Bool} {l : List Char}, c ∈ collapseWsAux b l →
      c = ' ' ∨ (c ∈ l ∧ jsWs c = false) := by
  intro b l
  induction l generalizing b with
  | nil => intro h; simp [collapseWsAux] at h
  | cons a t ih =>
    intro h
    by_cases ha : jsWs a = true
    · rcases b with _ | _
      · rw [collapseWsAux, if_pos ha] at h
        simp only [Bool.false_eq_true, if_false, List.mem_cons] at h
        rcases h with rfl | h
        · exact Or.inl rfl
        · rcases ih h with h1 | ⟨h1, h2⟩
          · exact Or.inl h1
          · exact Or.inr ⟨List.mem_cons_of_mem _ h1, h2⟩
      · rw [collapseWsAux, if_pos ha, if_pos rfl] at h
        rcases ih h with h1 | ⟨h1, h2⟩
        · exact Or.inl h1
        · exact Or.inr ⟨List.mem_cons_of_mem _ h1, h2⟩
    · rw [collapseWsAux, if_neg ha] at h
      rcases List.mem_cons.1 h with rfl | h
      · exact Or.inr ⟨List.mem_cons_self _ _, by simpa using ha⟩
      · rcases ih h with h1 | ⟨h1, h2⟩
        · exact Or.inl h1
        · exact Or.inr ⟨List.mem_cons_of_mem _ h1, h2⟩

lemma mem_underscoresToSpaces {l : List Char} {c : Char}
    (h : c ∈ underscoresToSpaces l) : c = ' ' ∨ (c ∈ l ∧ c ≠ '_') := by
  simp only [underscoresToSpaces, List.mem_map] at h
  obtain ⟨a, ha, hfa⟩ := h
  by_cases h2 : a = '_'
  · subst h2; simp at hfa; exact Or.inl hfa.symm
  · rw [if_neg h2] at hfa; subst hfa; exact Or.inr ⟨ha, h2⟩

lemma mem_removeSpecials {l : List Char} {c : Char}
    (h : c ∈ removeSpecials l) : c ∈ l ∧ specialChar c = false := by
  simp only [removeSpecials, List.mem_filter, Bool.not_eq_eq_eq_not, Bool.not_true] at h
  exact h

lemma cleanRawName_mem {raw : List Char} {c : Char} (h : c ∈ cleanRawName raw) :
    c = ' ' ∨ (c ∈ raw ∧ specialChar c = false ∧ jsWs c = false ∧ c ≠ '_') := by
  have h1 := mem_of_mem_stripTrailing (mem_of_mem_jsTrim h)
  rcases mem_collapseWsAux h1 with h2 | ⟨h2, hws⟩
  · exact Or.inl h2
  · rcases mem_underscoresToSpaces h2 with h3 | ⟨h3, hne⟩
    · exact Or.inl h3
    · obtain ⟨h4, hsp⟩ := mem_removeSpecials (mem_of_mem_jsTrim h3)
      exact Or.inr ⟨h4, hsp, hws, hne⟩

/-! ### Absence of adjacent whitespace -/


lemma noWsPair_tail {c : Char} {l : List Char} (h : noWsPair (c :: l) = true) :
    noWsPair l = true := by
  cases l with
  | nil => rfl
  | cons c2 t => exact (Bool.and_eq_true_iff.1 h).2

lemma noWsPair_cons_of_head {c : Char} {l : List Char} (hl : noWsPair l = true)
    (hh : ∀ d, l.head? = some d → (jsWs c && jsWs d) = false) :
    noWsPair (c :: l) = true := by
  cases l with
  | nil => rfl
  | cons c2 t =>
    rw [noWsPair, Bool.and_eq_true_iff]
    exact ⟨by simp [hh c2 rfl], hl⟩

lemma collapseWsAux_head_true {l : List Char} :
    ∀ d, (collapseWsAux true l).head? = some d → jsWs d = false := by
  induction l with
  | nil => intro d h; simp [collapseWsAux] at h
  | cons a t ih =>
    intro d h
    by_cases ha : jsWs a = true
    · rw [collapseWsAux, if_pos ha, if_pos rfl] at h
      exact ih d h
    · rw [collapseWsAux, if_neg ha] at h
      simp only [List.head?_cons, Option.some_inj] at h
      subst h
      simpa using ha

lemma noWsPair_collapseWsAux : ∀ (l : List Char) (b : Bool),
    noWsPair (collapseWsAux b l) = true := by
  intro l
  induction l with
  | nil => intro b; rfl
  | cons a t ih =>
    intro b
    by_cases ha : jsWs a = true
    · rcases b with _ | _
      · rw [collapseWsAux, if_pos ha]
        simp only [Bool.false_eq_true, if_false]
        refine noWsPair_cons_of_head (ih true) ?_
        intro d hd
        simp [collapseWsAux_head_true d hd]
      · rw [collapseWsAux, if_pos ha, if_pos rfl]
        exact ih true
    · rw [collapseWsAux, if_neg ha]
      refine noWsPair_cons_of_head (ih false) ?_
      intro d _
      simp [Bool.and_eq_false_iff]
      intro hcontra
      exact absurd hcontra ha

lemma noWsPair_append_left {l1 l2 : List Char}
    (h : noWsPair (l1 ++ l2) = true) : noWsPair l1 = true := by
  induction l1 with
  | nil => rfl
  | cons c t ih =>
    cases t with
    | nil => rfl
    | cons c2 t2 =>
      simp only [List.cons_append] at h
      rw [noWsPair, Bool.and_eq_true_iff] at h ⊢
      exact ⟨h.1, ih (by simpa using h.2)⟩

lemma noWsPair_append_right {l1 l2 : List Char}
    (h : noWsPair (l1 ++ l2) = true) : noWsPair l2 = true := by
  induction l1 with
  | nil => simpa using h
  | cons c t ih =>
    rw [List.cons_append] at h
    exact ih (noWsPair_tail h)

/-! ### Identity lemmas for the trimming operations -/

lemma dropWhile_eq_self_of_head {α : Type} {p : α → Bool} {l : List α}
    (h : ∀ c, l.head? = some c → p c = false) : l.dropWhile p = l := by
  cases l with
  | nil => rfl
  | cons c t => rw [List.dropWhile_cons, if_neg (by simp [h c rfl])]

lemma revDrop_eq_self_of_getLast {α : Type} {p : α → Bool} {l : List α}
    (h : ∀ c, l.getLast? = some c → p c = false) :
    (l.reverse.dropWhile p).reverse = l := by
  rw [dropWhile_eq_self_of_head, List.reverse_reverse]
  intro c hc
  rw [List.head?_reverse] at hc
  exact h c hc

lemma jsTrim_eq_self {l : List Char}
    (h1 : ∀ c, l.head? = some c → jsWs c = false)
    (h2 : ∀ c, l.getLast? = some c → jsWs c = false) : jsTrim l = l := by
  rw [jsTrim, dropWhile_eq_self_of_head h1, revDrop_eq_self_of_getLast h2]

lemma stripTrailing_eq_self {l : List Char}
    (h : ∀ c, l.getLast? = some c → (c = ' ' || c = '-') = false) :
    stripTrailingSpaceDash l = l :=
  revDrop_eq_self_of_getLast h

/-! ### Head and last of the trimmed results -/

lemma jsTrim_decomp (l : List Char) : ∃ t, l.dropWhile jsWs = jsTrim l ++ t := by
  refine ⟨((l.dropWhile jsWs).reverse.takeWhile jsWs).reverse, ?_⟩
  conv_lhs => rw [← List.reverse_reverse (l.dropWhile jsWs),
    ← List.takeWhile_append_dropWhile jsWs (l.dropWhile jsWs).reverse]
  rw [List.reverse_append, jsTrim]

lemma head_dropWhile_false {α : Type} {p : α → Bool} {l : List α} {c : α}
    (h : (l.dropWhile p).head? = some c) : p c = false := by
  have hd := List.head?_dropWhile_not p l
  rw [h] at hd
  exact hd

lemma jsTrim_head_not_ws {l : List Char} {c : Char}
    (h : (jsTrim l).head? = some c) : jsWs c = false := by
  obtain ⟨t, ht⟩ := jsTrim_decomp l
  have hne : jsTrim l ≠ [] := by
    intro hnil; rw [hnil] at h; simp at h
  apply @head_dropWhile_false Char jsWs l
  rw [ht, List.head?_append]
  rw [List.head?_eq_head hne] at h ⊢
  simp [← h]

lemma jsTrim_getLast_not_ws {l : List Char} {c : Char}
    (h : (jsTrim l).getLast? = some c) : jsWs c = false := by
  rw [jsTrim, List.getLast?_reverse] at h
  exact head_dropWhile_false h

lemma stripTrailing_getLast {l : List Char} {c : Char}
    (h : (stripTrailingSpaceDash l).getLast? = some c) : (c = ' ' || c = '-') = false := by
  simp only [stripTrailingSpaceDash, List.getLast?_reverse] at h
  have := head_dropWhile_false h
  simpa using this

lemma getLast?_dropWhile_of_ne_nil {α : Type} {p : α → Bool} {l : List α}
    (h : l.dropWhile p ≠ []) : (l.dropWhile p).getLast? = l.getLast? := by
  conv_rhs => rw [← List.takeWhile_append_dropWhile p l]
  rw [List.getLast?_append]
  cases hD : (l.dropWhile p).getLast?
  · exact absurd ((List.getLast?_eq_none_iff).1 hD) h
  · simp [Option.or]

/-! ### The parsed student name is normalized -/

lemma stripTrailing_decomp (l : List Char) : ∃ t, l = stripTrailingSpaceDash l ++ t := by
  refine ⟨(l.reverse.takeWhile (fun ch => ch = ' ' || ch = '-')).reverse, ?_⟩
  conv_lhs => rw [← List.reverse_reverse l,
    ← List.takeWhile_append_dropWhile (fun ch => ch = ' ' || ch = '-') l.reverse]
  rw [List.reverse_append, stripTrailingSpaceDash]

lemma jsTrim_getLast_eq {l : List Char} (hws : ∀ c ∈ l, jsWs c = true → c = ' ')
    (hlast : ∀ c, l.getLast? = some c → (c = ' ' || c = '-') = false) {c : Char}
    (h : (jsTrim l).getLast? = some c) : l.getLast? = some c := by
  have hD : l.dropWhile jsWs ≠ [] := by
    intro hnil
    have hj : jsTrim l = [] := by rw [jsTrim, hnil]; rfl
    rw [hj] at h; simp at h
  have hgl : (l.dropWhile jsWs).getLast? = l.getLast? := getLast?_dropWhile_of_ne_nil hD
  have hid : jsTrim l = l.dropWhile jsWs := by
    rw [jsTrim]
    apply revDrop_eq_self_of_getLast
    intro d hd
    rw [hgl] at hd
    have hne := hlast d hd
    by_cases hw : jsWs d = true
    · have hsp : d = ' ' := hws d (List.mem_of_getLast?_eq_some hd) hw
      rw [hsp] at hne; simp at hne
    · simpa using hw
  rw [hid, hgl] at h
  exact h

lemma cleanRawName_props {raw : List Char} (hslash : ∀ c ∈ raw, c ≠ '/') :
    (∀ c ∈ cleanRawName raw,
        specialChar c = false ∧ c ≠ '_' ∧ c ≠ '/' ∧ (jsWs c = true → c = ' ')) ∧
    noWsPair (cleanRawName raw) = true ∧
    (∀ c, (cleanRawName raw).head? = some c → jsWs c = false) ∧
    (∀ c, (cleanRawName raw).getLast? = some c → jsWs c = false ∧ c ≠ '-') := by
  set X := stripTrailingSpaceDash (collapseWs (underscoresToSpaces
    (jsTrim (removeSpecials raw)))) with hX
  have hXmem : ∀ c ∈ X, c = ' ' ∨ (c ∈ raw ∧ specialChar c = false ∧
      jsWs c = false ∧ c ≠ '_') := by
    intro c hc
    have h1 := mem_of_mem_stripTrailing hc
    rcases mem_collapseWsAux h1 with h2 | ⟨h2, hws⟩
    · exact Or.inl h2
    · rcases mem_underscoresToSpaces h2 with h3 | ⟨h3, hne⟩
      · exact Or.inl h3
      · obtain ⟨h4, hsp⟩ := mem_removeSpecials (mem_of_mem_jsTrim h3)
        exact Or.inr ⟨h4, hsp, hws, hne⟩
  have hXws : ∀ c ∈ X, jsWs c = true → c = ' ' := by
    intro c hc hw
    rcases hXmem c hc with h | ⟨-, -, hnw, -⟩
    · exact h
    · rw [hw] at hnw; cases hnw
  have hcn : cleanRawName raw = jsTrim X := by rw [cleanRawName]
  refine ⟨?_, ?_, ?_, ?_⟩
  · intro c hc
    rw [hcn] at hc
    rcases hXmem c (mem_of_mem_jsTrim hc) with rfl | ⟨hraw, hsp, hnw, hne⟩
    · exact ⟨by decide, by decide, by decide, fun _ => rfl⟩
    · exact ⟨hsp, hne, hslash c hraw, fun hw => absurd hw (by simp [hnw])⟩
  · rw [hcn]
    have hcw : noWsPair (collapseWs (underscoresToSpaces (jsTrim (removeSpecials raw))))
        = true := noWsPair_collapseWsAux _ false
    obtain ⟨t1, ht1⟩ := stripTrailing_decomp (collapseWs (underscoresToSpaces
      (jsTrim (removeSpecials raw))))
    have hx : noWsPair X = true := noWsPair_append_left (ht1 ▸ hcw)
    obtain ⟨t2, ht2⟩ := jsTrim_decomp X
    have hdw : noWsPair (X.dropWhile jsWs) = true := by
      have := List.takeWhile_append_dropWhile jsWs X
      exact @noWsPair_append_right (X.takeWhile jsWs) (X.dropWhile jsWs) (by rwa [this])
    exact noWsPair_append_left (ht2 ▸ hdw)
  · intro c hc
    rw [hcn] at hc
    exact jsTrim_head_not_ws hc
  · intro c hc
    rw [hcn] at hc
    refine ⟨jsTrim_getLast_not_ws hc, ?_⟩
    have hXl : X.getLast? = some c := by
      apply jsTrim_getLast_eq hXws ?_ hc
      intro d hd
      exact stripTrailing_getLast hd
    have := stripTrailing_getLast hXl
    intro hdash
    rw [hdash] at this
    simp at this

/-! ### Reconstructing the name from its canonical underscored form -/

lemma wsToUnderscoreAux_true_of_head {l : List Char}
    (hh : ∀ d, l.head? = some d → jsWs d = false) :
    wsToUnderscoreAux true l = wsToUnderscoreAux false l := by
  cases l with
  | nil => rfl
  | cons c t =>
    have := hh c rfl
    rw [wsToUnderscoreAux, wsToUnderscoreAux, if_neg (by simp [this]),
      if_neg (by simp [this])]

lemma wsRunsToUnderscore_eq_map {n : List Char} (hpairs : noWsPair n = true)
    (hws : ∀ c ∈ n, jsWs c = true → c = ' ') :
    wsRunsToUnderscore n = n.map (fun c => if c = ' ' then '_' else c) := by
  rw [wsRunsToUnderscore]
  induction n with
  | nil => rfl
  | cons c t ih =>
    by_cases hc : jsWs c = true
    · have hcsp : c = ' ' := hws c (List.mem_cons_self _ _) hc
      subst hcsp
      rw [wsToUnderscoreAux, if_pos hc]
      have hth : ∀ d, t.head? = some d → jsWs d = false := by
        intro d hd
        cases t with
        | nil => simp at hd
        | cons c2 t2 =>
          simp only [List.head?_cons, Option.some_inj] at hd
          subst hd
          rw [noWsPair, Bool.and_eq_true_iff] at hpairs
          have := hpairs.1
          simpa [hc] using this
      rw [if_neg (by simp), wsToUnderscoreAux_true_of_head hth,
        ih (noWsPair_tail hpairs) (fun d hd hw => hws d (List.mem_cons_of_mem _ hd) hw)]
      simp
    · rw [wsToUnderscoreAux, if_neg hc]
      have hcne : c ≠ ' ' := by intro hsp; rw [hsp] at hc; exact hc (by decide)
      simp only [List.map_cons, if_neg hcne]
      rw [ih (noWsPair_tail hpairs) (fun d hd hw => hws d (List.mem_cons_of_mem _ hd) hw)]

lemma collapseWsAux_true_of_head {l : List Char}
    (hh : ∀ d, l.head? = some d → jsWs d = false) :
    collapseWsAux true l = collapseWsAux false l := by
  cases l with
  | nil => rfl
  | cons c t =>
    have := hh c rfl
    rw [collapseWsAux, collapseWsAux, if_neg (by simp [this]), if_neg (by simp [this])]

lemma collapseWs_eq_self {n : List Char} (hpairs : noWsPair n = true)
    (hws : ∀ c ∈ n, jsWs c = true → c = ' ') : collapseWs n = n := by
  rw [collapseWs]
  induction n with
  | nil => rfl
  | cons c t ih =>
    by_cases hc : jsWs c = true
    · have hcsp : c = ' ' := hws c (List.mem_cons_self _ _) hc
      rw [collapseWsAux, if_pos hc]
      simp only [Bool.false_eq_true, if_false]
      have hth : ∀ d, t.head? = some d → jsWs d = false := by
        intro d hd
        cases t with
        | nil => simp at hd
        | cons c2 t2 =>
          simp only [List.head?_cons, Option.some_inj] at hd
          subst hd
          rw [noWsPair, Bool.and_eq_true_iff] at hpairs
          simpa [hc] using hpairs.1
      rw [collapseWsAux_true_of_head hth,
        ih (noWsPair_tail hpairs) (fun d hd hw => hws d (List.mem_cons_of_mem _ hd) hw), hcsp]
    · rw [collapseWsAux, if_neg hc,
        ih (noWsPair_tail hpairs) (fun d hd hw => hws d (List.mem_cons_of_mem _ hd) hw)]

lemma cleanRawName_of_normalized {n : List Char}
    (hchars : ∀ c ∈ n, specialChar c = false ∧ c ≠ '_' ∧ (jsWs c = true → c = ' '))
    (hpairs : noWsPair n = true)
    (hhead : ∀ c, n.head? = some c → jsWs c = false)
    (hlast : ∀ c, n.getLast? = some c → jsWs c = false ∧ c ≠ '-') :
    cleanRawName (wsRunsToUnderscore n) = n := by
  have hws : ∀ c ∈ n, jsWs c = true → c = ' ' := fun c hc => (hchars c hc).2.2
  have hmap := wsRunsToUnderscore_eq_map hpairs hws
  rw [cleanRawName, hmap]
  have h1 : removeSpecials (n.map (fun c => if c = ' ' then '_' else c))
      = n.map (fun c => if c = ' ' then '_' else c) := by
    rw [removeSpecials, List.filter_eq_self]
    intro a ha
    obtain ⟨b, hb, hfb⟩ := List.mem_map.1 ha
    by_cases hbsp : b = ' '
    · rw [if_pos hbsp] at hfb; subst hfb; decide
    · rw [if_neg hbsp] at hfb; subst hfb
      simp [(hchars b hb).1]
  have hmaphead : ∀ c, (n.map (fun c => if c = ' ' then '_' else c)).head? = some c →
      jsWs c = false := by
    intro c hc
    rw [List.head?_map] at hc
    cases hn : n.head? with
    | none => rw [hn] at hc; cases hc
    | some b =>
      rw [hn] at hc
      simp only [Option.map_some', Option.some_inj] at hc
      have hbw := hhead b hn
      have hbne : b ≠ ' ' := by intro hx; rw [hx] at hbw; exact absurd hbw (by decide)
      rw [if_neg hbne] at hc
      rw [← hc]; exact hbw
  have hmaplast : ∀ c, (n.map (fun c => if c = ' ' then '_' else c)).getLast? = some c →
      jsWs c = false := by
    intro c hc
    rw [List.getLast?_map] at hc
    cases hn : n.getLast? with
    | none => rw [hn] at hc; cases hc
    | some b =>
      rw [hn] at hc
      simp only [Option.map_some', Option.some_inj] at hc
      have hbw := (hlast b hn).1
      have hbne : b ≠ ' ' := by intro hx; rw [hx] at hbw; exact absurd hbw (by decide)
      rw [if_neg hbne] at hc
      rw [← hc]; exact hbw
  rw [h1, jsTrim_eq_self hmaphead hmaplast]
  have h2 : underscoresToSpaces (n.map (fun c => if c = ' ' then '_' else c)) = n := by
    rw [underscoresToSpaces, List.map_map]
    have hcongr : ∀ a ∈ n,
        ((fun c => if c = '_' then ' ' else c) ∘ (fun c => if c = ' ' then '_' else c)) a
          = id a := by
      intro a ha
      by_cases hsp : a = ' '
      · simp [hsp]
      · have hne : a ≠ '_' := (hchars a ha).2.1
        simp [hsp, hne]
    rw [List.map_congr_left hcongr, List.map_id]
  rw [h2, collapseWs_eq_self hpairs hws]
  have hst : ∀ c, n.getLast? = some c → (c = ' ' || c = '-') = false := by
    intro c hc
    obtain ⟨hcw, hcd⟩ := hlast c hc
    have hcsp : c ≠ ' ' := by intro hx; rw [hx] at hcw; exact absurd hcw (by decide)
    simp [hcsp, hcd]
  rw [stripTrailing_eq_self hst, jsTrim_eq_self hhead (fun c hc => (hlast c hc).1)]

/-! ### Date-shaped windows -/


lemma hasDateSub_spec {l : List Char} (h : hasDateSub l = false) :
    ∀ j, dateChars ((l.drop j).take 10) = false := by
  intro j
  by_cases hj : j < l.length
  · cases hd : dateChars ((l.drop j).take 10)
    · rfl
    · exfalso
      have htrue : hasDateSub l = true := by
        rw [hasDateSub, List.any_eq_true]
        exact ⟨j, List.mem_range.2 hj, hd⟩
      rw [h] at htrue
      cases htrue
  · rw [List.drop_eq_nil_of_le (Nat.le_of_not_lt hj)]
    rfl

/-! ### Provenance of the regex captures -/

lemma meetAux_mem {l : List Char} :
    ∀ {acc g1 d : List Char}, meetAux acc l = some (g1, d) →
      ∀ c ∈ g1, c ∈ acc ∨ c ∈ l := by
  induction l with
  | nil => intro acc g1 d h; cases h
  | cons a rest ih =>
    intro acc g1 d h c hc
    rw [meetAux] at h
    cases hm : meetTail rest with
    | some dd =>
      rw [hm] at h
      simp only [Option.some_inj, Prod.mk.injEq] at h
      obtain ⟨h1, -⟩ := h
      subst h1
      rcases List.mem_append.1 hc with hx | hx
      · exact Or.inl hx
      · simp only [List.mem_singleton] at hx
        subst hx
        exact Or.inr (List.mem_cons_self _ _)
    | none =>
      rw [hm] at h
      rcases ih h c hc with hx | hx
      · rcases List.mem_append.1 hx with hy | hy
        · exact Or.inl hy
        · simp only [List.mem_singleton] at hy
          subst hy
          exact Or.inr (List.mem_cons_self _ _)
      · exact Or.inr (List.mem_cons_of_mem _ hx)

lemma processedAux_mem {l : List Char} :
    ∀ {acc g1 d : List Char}, processedAux acc l = some (g1, d) →
      ∀ c ∈ g1, c ∈ acc ∨ c ∈ l := by
  induction l with
  | nil => intro acc g1 d h; cases h
  | cons a rest ih =>
    intro acc g1 d h c hc
    rw [processedAux] at h
    cases hm : processedTail rest with
    | some dd =>
      rw [hm] at h
      simp only [Option.some_inj, Prod.mk.injEq] at h
      obtain ⟨h1, -⟩ := h
      subst h1
      rcases List.mem_append.1 hc with hx | hx
      · exact Or.inl hx
      · simp only [List.mem_singleton] at hx
        subst hx
        exact Or.inr (List.mem_cons_self _ _)
    | none =>
      rw [hm] at h
      rcases ih h c hc with hx | hx
      · rcases List.mem_append.1 hx with hy | hy
        · exact Or.inl hy
        · simp only [List.mem_singleton] at hy
          subst hy
          exact Or.inr (List.mem_cons_self _ _)
      · exact Or.inr (List.mem_cons_of_mem _ hx)

lemma slashMap_no_slash {l : List Char} {c : Char}
    (h : c ∈ l.map (fun ch => if ch = '/' then '-' else ch)) : c ≠ '/' := by
  obtain ⟨b, -, hfb⟩ := List.mem_map.1 h
  by_cases hb : b = '/'
  · rw [if_pos hb] at hfb; subst hfb; decide
  · rw [if_neg hb] at hfb; subst hfb; exact hb

/-! ### Inversion of the parser -/

lemma extract_inv {f : List Char} {n d : List Char}
    (h : extractStudentInfoFromFilename f = some ⟨n, d⟩) :
    ∃ g1, (∀ c ∈ g1, c ≠ '/') ∧ n = cleanRawName g1 ∧
      n ≠ [] ∧ dateChars d = true := by
  rw [extractStudentInfoFromFilename] at h
  set cf := (jsTrim (stripExtension f)).map (fun c => if c = '/' then '-' else c) with hcf
  cases horelse : (meetMatch cf).orElse (fun _ => processedMatch cf) with
  | none => rw [horelse] at h; cases h
  | some p =>
    obtain ⟨g1, g2⟩ := p
    rw [horelse] at h
    have h2 : (if (!(cleanRawName g1).isEmpty && dateChars g2) = true
        then some (⟨cleanRawName g1, g2⟩ : StudentInfo) else none) = some ⟨n, d⟩ := h
    by_cases hguard : (!(cleanRawName g1).isEmpty && dateChars g2) = true
    · rw [if_pos hguard] at h2
      simp only [Option.some_inj, StudentInfo.mk.injEq] at h2
      obtain ⟨hn, hd⟩ := h2
      rw [Bool.and_eq_true_iff, Bool.not_eq_eq_eq_not, Bool.not_true,
        List.isEmpty_eq_false] at hguard
      refine ⟨g1, ?_, hn.symm, hn ▸ hguard.1, hd ▸ hguard.2⟩
      intro c hc
      have hcmem : c ∈ ([] : List Char) ∨ c ∈ cf := by
        cases hmeet : meetMatch cf with
        | some q =>
          rw [hmeet] at horelse
          have hq : q = (g1, g2) := by simpa [Option.orElse] using horelse
          rw [meetMatch] at hmeet
          exact meetAux_mem (hq ▸ hmeet) c hc
        | none =>
          rw [hmeet] at horelse
          have hp : processedMatch cf = some (g1, g2) := by
            simpa [Option.orElse] using horelse
          rw [processedMatch] at hp
          exact processedAux_mem hp c hc
      rcases hcmem with hx | hx
      · cases hx
      · rw [hcf] at hx
        exact slashMap_no_slash hx
    · rw [if_neg hguard] at h2
      cases h2

lemma extract_props {f n d : List Char}
    (h : extractStudentInfoFromFilename f = some ⟨n, d⟩) :
    n ≠ [] ∧ dateChars d = true ∧
    (∀ c ∈ n, specialChar c = false ∧ c ≠ '_' ∧ c ≠ '/' ∧ (jsWs c = true → c = ' ')) ∧
    noWsPair n = true ∧
    (∀ c, n.head? = some c → jsWs c = false) ∧
    (∀ c, n.getLast? = some c → jsWs c = false ∧ c ≠ '-') := by
  obtain ⟨g1, hsl, hn, hne, hd⟩ := extract_inv h
  obtain ⟨hc, hp, hh, hl⟩ := cleanRawName_props hsl
  subst hn
  exact ⟨hne, hd, hc, hp, hh, hl⟩

lemma idFragChar_not_ws {c : Char} (h : idFragChar c = true) : jsWs c = false := by
  cases hw : jsWs c
  · rfl
  · exact absurd h (by simp [(jsWs_facts hw).1])

lemma dateChars_char_facts {l : List Char} (h : dateChars l = true) :
    ∀ c ∈ l, c ≠ '/' ∧ jsWs c = false := by
  intro c hc
  have hm := dateChars_mem h c hc
  refine ⟨?_, ?_⟩
  · intro hx; subst hx; exact absurd hm (by decide)
  · cases hw : jsWs c
    · rfl
    · exfalso
      obtain ⟨-, hdg, -, -, -, hsep⟩ := jsWs_facts hw
      rcases Bool.or_eq_true_iff.1 hm with hx | hx
      · rw [hdg] at hx; cases hx
      · have hcd : c = '-' := by simpa using hx
        have := hsep (by rw [hcd]; decide)
        rw [this] at hcd
        cases hcd

lemma stripExtension_append_mp4 (A : List Char) :
    stripExtension (A ++ ['.', 'm', 'p', '4']) = A := by
  have hrev : (A ++ ['.', 'm', 'p', '4']).reverse = '4' :: 'p' :: 'm' :: '.' :: A.reverse := by
    rw [List.reverse_append]
    rfl
  rw [stripExtension]
  simp only [hrev, List.takeWhile_cons, List.dropWhile_cons]
  simp [List.reverse_reverse]

/-- Core of the round-trip argument: on any extension-suffixed canonical base
`<N>_<date>_<frag><ext>` built from a parser-accepted pair, the parser returns
that pair again. -/
lemma extract_canonical_base {f n d : List Char} (frag ext : List Char)
    (hparse : extractStudentInfoFromFilename f = some ⟨n, d⟩)
    (hnodate : hasDateSub (wsRunsToUnderscore n) = false)
    (hfragmem : ∀ c ∈ frag, idFragChar c = true)
    (hstrip : stripExtension ((wsRunsToUnderscore n ++ '_' :: (d ++ '_' :: frag)) ++ ext)
      = wsRunsToUnderscore n ++ '_' :: (d ++ '_' :: frag)) :
    extractStudentInfoFromFilename
      ((wsRunsToUnderscore n ++ '_' :: (d ++ '_' :: frag)) ++ ext) = some ⟨n, d⟩ := by
  obtain ⟨hne, hd, hchars, hpairs, hhead, hlast⟩ := extract_props hparse
  have hws : ∀ c ∈ n, jsWs c = true → c = ' ' := fun c hc => (hchars c hc).2.2.2
  have hmapN : wsRunsToUnderscore n = n.map (fun c => if c = ' ' then '_' else c) :=
    wsRunsToUnderscore_eq_map hpairs hws
  set N := wsRunsToUnderscore n with hN
  set A := N ++ '_' :: (d ++ '_' :: frag) with hA
  have hNne : N ≠ [] := by
    rw [hmapN]
    simpa using hne
  -- head of the base string
  obtain ⟨b, hb⟩ : ∃ b, n.head? = some b := by
    cases hx : n.head? with
    | none => exact absurd ((List.head?_eq_none_iff).1 hx) hne
    | some b => exact ⟨b, rfl⟩
  have hbw := hhead b hb
  have hbne : b ≠ ' ' := by intro hx; rw [hx] at hbw; exact absurd hbw (by decide)
  have hNhead : N.head? = some b := by
    rw [hmapN, List.head?_map, hb]
    simp [if_neg hbne]
  have hAheadw : ∀ c, A.head? = some c → jsWs c = false := by
    intro c hc
    rw [hA, List.head?_append, hNhead] at hc
    cases hc
    exact hbw
  -- last of the base string
  have htail : ∃ ct, ('_' :: (d ++ '_' :: frag)).getLast? = some ct ∧ jsWs ct = false := by
    cases hfg : frag with
    | nil =>
      refine ⟨'_', ?_, by decide⟩
      rw [show ('_' :: (d ++ '_' :: ([] : List Char))) = ('_' :: d) ++ ['_'] by simp]
      rw [List.getLast?_append]
      rfl
    | cons g gs =>
      have hfne : frag ≠ [] := by rw [hfg]; simp
      obtain ⟨L, hL⟩ : ∃ L, frag.getLast? = some L := by
        cases hx : frag.getLast? with
        | none => exact absurd ((List.getLast?_eq_none_iff).1 hx) hfne
        | some L => exact ⟨L, rfl⟩
      refine ⟨L, ?_, idFragChar_not_ws (hfragmem L (List.mem_of_getLast?_eq_some hL))⟩
      rw [← hfg]
      rw [show ('_' :: (d ++ '_' :: frag)) = ('_' :: (d ++ ['_'])) ++ frag by simp]
      rw [List.getLast?_append, hL]
      rfl
  have hAlastw : ∀ c, A.getLast? = some c → jsWs c = false := by
    intro c hc
    obtain ⟨ct, hct, hctw⟩ := htail
    rw [hA, List.getLast?_append, hct] at hc
    cases hc
    exact hctw
  -- the base string contains no slash
  have hAslash : ∀ c ∈ A, c ≠ '/' := by
    intro c hc
    rw [hA] at hc
    rcases List.mem_append.1 hc with hx | hx
    · rw [hmapN] at hx
      obtain ⟨a, ha, hfa⟩ := List.mem_map.1 hx
      by_cases hsp : a = ' '
      · rw [if_pos hsp] at hfa; subst hfa; decide
      · rw [if_neg hsp] at hfa; subst hfa
        exact (hchars a ha).2.2.1
    · rcases List.mem_cons.1 hx with rfl | hx
      · decide
      · rcases List.mem_append.1 hx with hy | hy
        · exact (dateChars_char_facts hd c hy).1
        · rcases List.mem_cons.1 hy with rfl | hy
          · decide
          · intro hsl
            subst hsl
            exact absurd (hfragmem _ hy) (by decide)
  have hAmap : A.map (fun ch => if ch = '/' then '-' else ch) = A := by
    have hcg : ∀ c ∈ A, (if c = '/' then '-' else c) = id c := by
      intro c hc
      rw [if_neg (hAslash c hc)]
      rfl
    rw [List.map_congr_left hcg, List.map_id]
  -- the meet regex stops exactly at the canonical boundary
  have hNlastsep : ∀ c, N.getLast? = some c → isSepChar c = false := by
    intro c hc
    obtain ⟨bb, hbb⟩ : ∃ bb, n.getLast? = some bb := by
      cases hx : n.getLast? with
      | none => exact absurd ((List.getLast?_eq_none_iff).1 hx) hne
      | some bb => exact ⟨bb, rfl⟩
    obtain ⟨hbbw, hbbd⟩ := hlast bb hbb
    have hbbsp : bb ≠ ' ' := by intro hx; rw [hx] at hbbw; exact absurd hbbw (by decide)
    have hbbu : bb ≠ '_' :=
      (hchars bb (List.mem_of_getLast?_eq_some hbb)).2.1
    rw [hmapN, List.getLast?_map, hbb] at hc
    simp only [Option.map_some', Option.some_inj, if_neg hbbsp] at hc
    subst hc
    simp [isSepChar, hbbsp, hbbu, hbbd]
  have hwin : ∀ j, dateChars ((N.drop j).take 10) = false := hasDateSub_spec hnodate
  have hmeet : meetMatch A = some (N, d) := by
    rw [hA, meetMatch]
    have hm := meetAux_canonical hd ('_' :: frag) N [] hNne hNlastsep hwin
    simpa using hm
  -- assemble the parser run on the canonical filename
  have hclean : cleanRawName N = n :=
    cleanRawName_of_normalized
      (fun c hc => ⟨(hchars c hc).1, (hchars c hc).2.1, (hchars c hc).2.2.2⟩)
      hpairs hhead hlast
  rw [extractStudentInfoFromFilename]
  rw [show stripExtension (A ++ ext) = A from hstrip,
    jsTrim_eq_self hAheadw hAlastw, hAmap, hmeet]
  simp [Option.orElse, hclean, hne, hd]

/-- C6 (amended form): if the extracted student name, in its underscored
canonical form, contains no embedded `\d{4}-\d{2}-\d{2}` window, and the
ten-character file-id fragment is drawn from `[A-Za-z0-9_-]`, then parsing the
canonical renamed filename returns exactly the pair the renamer was built
from. -/
theorem claim_C6 {f n d fileId : List Char}
    (hparse : extractStudentInfoFromFilename f = some ⟨n, d⟩)
    (hnodate : hasDateSub (wsRunsToUnderscore n) = false)
    (hfrag : (fileId.take 10).all idFragChar = true) :
    extractStudentInfoFromFilename (canonicalName n d fileId) = some ⟨n, d⟩ := by
  have hcanon : canonicalName n d fileId
      = (wsRunsToUnderscore n ++ '_' :: (d ++ '_' :: fileId.take 10)) ++ ['.', 'm', 'p', '4'] := by
    rw [canonicalName]
    simp [List.append_assoc]
  rw [hcanon]
  exact extract_canonical_base (fileId.take 10) ['.', 'm', 'p', '4'] hparse hnodate
    (fun c hc => List.all_eq_true.1 hfrag c hc)
    (stripExtension_append_mp4 _)

/-! ### Lowercasing facts -/

lemma char_toNat_ofNat {m : Nat} (h : Nat.isValidChar m) :
    (Char.ofNat m).toNat = m := by
  rw [Char.ofNat, dif_pos h]
  simp [Char.ofNatAux, Char.toNat, UInt32.toNat, BitVec.toNat_ofNatLt]

lemma wsChars_toNat : wsChars.all (fun w => w.toNat < 97 || 122 < w.toNat) = true := by
  decide

lemma toLower_not_ws {c : Char} (h : jsWs c = false) : jsWs c.toLower = false := by
  rw [Char.toLower]
  by_cases hr : c.toNat ≥ 65 ∧ c.toNat ≤ 90
  · rw [if_pos hr]
    cases hw : jsWs (Char.ofNat (c.toNat + 32))
    · rfl
    · exfalso
      have hmem := jsWs_enum hw
      have hv : (Char.ofNat (c.toNat + 32)).toNat = c.toNat + 32 :=
        char_toNat_ofNat (Or.inl (by omega))
      have hbound := List.all_eq_true.1 wsChars_toNat _ hmem
      rw [hv] at hbound
      simp only [Bool.or_eq_true, decide_eq_true_eq] at hbound
      omega
  · rw [if_neg hr]
    exact h

/-! ### The transcript-name regex on a canonical split -/

lemma extTxtCI_mem {l : List Char} (h : extTxtCI l = true) : l ∈ txtVariants := by
  simpa [extTxtCI, List.contains_eq_any_beq] using h

lemma extTxtCI_cases {l : List Char} (h : extTxtCI l = true) :
    ∃ a b c, l = ['.', a, b, c] := by
  have hm := extTxtCI_mem h
  simp only [txtVariants, List.mem_cons, List.not_mem_nil, or_false] at hm
  rcases hm with rfl | rfl | rfl | rfl | rfl | rfl | rfl | rfl <;>
    exact ⟨_, _, _, rfl⟩

lemma extTxtCI_length {l : List Char} (h : extTxtCI l = true) : l.length = 4 := by
  obtain ⟨a, b, c, rfl⟩ := extTxtCI_cases h
  rfl

lemma stripExtension_append_txt (A : List Char) :
    stripExtension (A ++ ['.', 't', 'x', 't']) = A := by
  have hrev : (A ++ ['.', 't', 'x', 't']).reverse = 't' :: 'x' :: 't' :: '.' :: A.reverse := by
    rw [List.reverse_append]
    rfl
  rw [stripExtension]
  simp only [hrev, List.takeWhile_cons, List.dropWhile_cons]
  simp [List.reverse_reverse]

lemma transcriptTail_boundary {date frag ext : List Char}
    (hdate : dateChars date = true) (hfraglen : frag.length = 10)
    (hfrag : frag.all idFragChar = true) (hext : extTxtCI ext = true) :
    transcriptTail ('_' :: (date ++ '_' :: (frag ++ ext))) = some date := by
  rw [transcriptTail]
  rw [List.take_left' (dateChars_ten hdate), if_pos hdate,
    List.drop_left' (dateChars_ten hdate)]
  have hn1 : extTxtCI ('_' :: (frag ++ ext)) = false := by
    cases hx : extTxtCI ('_' :: (frag ++ ext))
    · rfl
    · obtain ⟨a, b, c, hl⟩ := extTxtCI_cases hx
      cases hl
  rw [if_neg (by simp [hn1])]
  show (if (((frag ++ ext).take 10).all idFragChar &&
      decide ((frag ++ ext).length = 14) && extTxtCI ((frag ++ ext).drop 10)) = true
    then some date else none) = some date
  rw [List.take_left' hfraglen, List.drop_left' hfraglen]
  rw [if_pos (by simp [hfrag, hext, List.length_append, hfraglen, extTxtCI_length hext])]

lemma transcriptAux_canonical {date frag ext : List Char}
    (hdate : dateChars date = true) (hfraglen : frag.length = 10)
    (hfrag : frag.all idFragChar = true) (hext : extTxtCI ext = true) :
    ∀ (tail acc : List Char), tail ≠ [] →
      (∀ j, dateChars ((tail.drop j).take 10) = false) →
      transcriptAux acc (tail ++ '_' :: (date ++ '_' :: (frag ++ ext)))
        = some (acc ++ tail, date) := by
  intro tail
  induction tail with
  | nil => intro acc h; exact absurd rfl h
  | cons c t ih =>
    intro acc _ hwin
    cases t with
    | nil =>
      rw [show (c :: ([] : List Char)) ++ '_' :: (date ++ '_' :: (frag ++ ext))
          = c :: '_' :: (date ++ '_' :: (frag ++ ext)) by simp]
      rw [transcriptAux, transcriptTail_boundary hdate hfraglen hfrag hext]
    | cons c2 t2 =>
      have hstep : transcriptTail (c2 :: (t2 ++ '_' :: (date ++ '_' :: (frag ++ ext))))
          = none := by
        by_cases hc2 : c2 = '_'
        · subst hc2
          rw [transcriptTail]
          have hfalse : dateChars
              ((t2 ++ '_' :: (date ++ '_' :: (frag ++ ext))).take 10) = false := by
            rcases Nat.lt_or_ge t2.length 10 with hlen | hlen
            · apply dateChars_eq_false_of_underscore
              rw [List.take_append_eq_append_take,
                List.take_of_length_le (Nat.le_of_lt hlen)]
              have h1 : 1 ≤ 10 - t2.length := by omega
              rcases Nat.exists_eq_add_of_le h1 with ⟨m, hm⟩
              rw [List.mem_append]
              right
              rw [show 10 - t2.length = 1 + m from hm, List.take_add]
              simp
            · rw [List.take_append_eq_append_take, Nat.sub_eq_zero_of_le hlen,
                List.take_zero, List.append_nil]
              have hw := hwin 2
              rwa [List.drop_succ_cons, List.drop_succ_cons, List.drop_zero] at hw
          simp [hfalse]
        · simp [transcriptTail, hc2]
      rw [show (c :: c2 :: t2) ++ '_' :: (date ++ '_' :: (frag ++ ext))
          = c :: (c2 :: (t2 ++ '_' :: (date ++ '_' :: (frag ++ ext)))) by simp,
        transcriptAux, hstep]
      have hrec := ih (acc ++ [c]) (by simp) (fun j => by simpa using hwin (j + 1))
      simpa [List.append_assoc] using hrec

lemma underscoresToSpaces_wsRuns {n : List Char} (hpairs : noWsPair n = true)
    (hchars : ∀ c ∈ n, c ≠ '_' ∧ (jsWs c = true → c = ' ')) :
    underscoresToSpaces (wsRunsToUnderscore n) = n := by
  rw [wsRunsToUnderscore_eq_map hpairs (fun c hc => (hchars c hc).2),
    underscoresToSpaces, List.map_map]
  have hcongr : ∀ a ∈ n,
      ((fun c => if c = '_' then ' ' else c) ∘ (fun c => if c = ' ' then '_' else c)) a
        = id a := by
    intro a ha
    by_cases hsp : a = ' '
    · simp [hsp]
    · simp [hsp, (hchars a ha).1]
  rw [List.map_congr_left hcongr, List.map_id]

/-- C8 (amended form): on a canonical transcript name built from a
parser-accepted pair whose name contains no hyphen and, in underscored form,
no embedded date window, the pair derived inline by the Transcript
Distribution Engine equals the pair returned by the recording parser applied
to the same transcript name, up to ASCII lowercasing of the name. -/
theorem claim_C8 {f n d fileId : List Char}
    (hparse : extractStudentInfoFromFilename f = some ⟨n, d⟩)
    (hnodate : hasDateSub (wsRunsToUnderscore n) = false)
    (hdash : '-' ∉ n)
    (hfraglen : (fileId.take 10).length = 10)
    (hfrag : (fileId.take 10).all idFragChar = true) :
    extractStudentInfoFromFilename (canonicalTranscriptName n d fileId)
      = some ⟨n, d⟩ ∧
    importDerivedPair (canonicalTranscriptName n d fileId)
      = some (toLowerList n, d) := by
  obtain ⟨hne, hd, hchars, hpairs, hhead, hlast⟩ := extract_props hparse
  have hws : ∀ c ∈ n, jsWs c = true → c = ' ' := fun c hc => (hchars c hc).2.2.2
  have hmapN : wsRunsToUnderscore n = n.map (fun c => if c = ' ' then '_' else c) :=
    wsRunsToUnderscore_eq_map hpairs hws
  set N := wsRunsToUnderscore n with hN
  set frag := fileId.take 10 with hfragdef
  have hNne : N ≠ [] := by rw [hmapN]; simpa using hne
  have hcanon1 : canonicalTranscriptName n d fileId
      = (N ++ '_' :: (d ++ '_' :: frag)) ++ ['.', 't', 'x', 't'] := by
    rw [canonicalTranscriptName]
    simp [List.append_assoc]
  have hcanon2 : canonicalTranscriptName n d fileId
      = N ++ '_' :: (d ++ '_' :: (frag ++ ['.', 't', 'x', 't'])) := by
    rw [hcanon1]
    simp [List.append_assoc]
  constructor
  · rw [hcanon1]
    exact extract_canonical_base frag ['.', 't', 'x', 't'] hparse hnodate
      (fun c hc => List.all_eq_true.1 hfrag c hc)
      (stripExtension_append_txt _)
  · have hwin : ∀ j, dateChars ((N.drop j).take 10) = false := hasDateSub_spec hnodate
    have hmatch : transcriptMatch (canonicalTranscriptName n d fileId) = some (N, d) := by
      rw [hcanon2, transcriptMatch]
      have := @transcriptAux_canonical d frag ['.', 't', 'x', 't'] hd hfraglen hfrag
        (by decide) N [] hNne hwin
      simpa using this
    have hstar : '*' ∉ N := by
      intro hmem
      rw [hmapN] at hmem
      obtain ⟨b, hb, hfb⟩ := List.mem_map.1 hmem
      by_cases hsp : b = ' '
      · rw [if_pos hsp] at hfb
        exact absurd hfb (by decide)
      · rw [if_neg hsp] at hfb
        subst hfb
        exact absurd (hchars _ hb).1 (by decide)
    have hwarn : ∀ c ∈ N, warningChar c = false := by
      intro c hc
      rw [hmapN] at hc
      obtain ⟨b, hb, hfb⟩ := List.mem_map.1 hc
      by_cases hsp : b = ' '
      · rw [if_pos hsp] at hfb; subst hfb; decide
      · rw [if_neg hsp] at hfb
        subst hfb
        cases hwc : warningChar b
        · rfl
        · exfalso
          have hspec := (hchars b hb).1
          simp only [warningChar, Bool.or_eq_true, decide_eq_true_eq] at hwc
          rcases hwc with ((((rfl | rfl) | rfl) | rfl) | rfl)
          · exact absurd hspec (by decide)
          · exact hdash hb
          · exact absurd hspec (by decide)
          · exact absurd hspec (by decide)
          · exact absurd hspec (by decide)
    have hwmap : N.map (fun c => if warningChar c then ' ' else c) = N := by
      have hcg : ∀ c ∈ N, (if warningChar c then ' ' else c) = id c := by
        intro c hc
        rw [if_neg (by simp [hwarn c hc])]
        rfl
      rw [List.map_congr_left hcg, List.map_id]
    have hu2s : underscoresToSpaces N = n :=
      underscoresToSpaces_wsRuns hpairs
        (fun c hc => ⟨(hchars c hc).2.1, (hchars c hc).2.2.2⟩)
    have hlowtrim : jsTrim (toLowerList n) = toLowerList n := by
      apply jsTrim_eq_self
      · intro c hc
        rw [toLowerList, List.head?_map] at hc
        cases hx : n.head? with
        | none => rw [hx] at hc; cases hc
        | some b =>
          rw [hx] at hc
          simp only [Option.map_some', Option.some_inj] at hc
          rw [← hc]
          exact toLower_not_ws (hhead b hx)
      · intro c hc
        rw [toLowerList, List.getLast?_map] at hc
        cases hx : n.getLast? with
        | none => rw [hx] at hc; cases hc
        | some b =>
          rw [hx] at hc
          simp only [Option.map_some', Option.some_inj] at hc
          rw [← hc]
          exact toLower_not_ws (hlast b hx).1
    rw [importDerivedPair, hmatch]
    show (if '*' ∈ N then none
        else some (jsTrim (toLowerList (collapseWs (underscoresToSpaces
          (N.map (fun c => if warningChar c then ' ' else c))))), d))
      = some (toLowerList n, d)
    rw [if_neg hstar, hwmap, hu2s, collapseWs_eq_self hpairs hws, hlowtrim]

/-- C8 counterexample: on the canonical transcript name
`Jane_Doe_2024-03-01_AbCdEfGhIj.txt`, the Transcript Distribution Engine
derives the lowercased pair `("jane doe", "2024-03-01")` while the recording
parser returns `("Jane Doe", "2024-03-01")`: the derived pair does not equal
the parser pair as the claim states. -/
theorem claim_C8_counterexample :
    extractStudentInfoFromFilename "Jane_Doe_2024-03-01_AbCdEfGhIj.txt".data
      = some ⟨"Jane Doe".data, "2024-03-01".data⟩ ∧
    importDerivedPair "Jane_Doe_2024-03-01_AbCdEfGhIj.txt".data
      = some ("jane doe".data, "2024-03-01".data) ∧
    ("jane doe".data, "2024-03-01".data) ≠ ("Jane Doe".data, "2024-03-01".data) :=
  ⟨by decide, by decide, by decide⟩

/-- Witness for `claim_C8` at the Jane Doe example. -/
theorem claim_C8_witness :
    extractStudentInfoFromFilename (canonicalTranscriptName "Jane Doe".data
        "2024-03-01".data "AbCdEfGhIjKlMn".data)
      = some ⟨"Jane Doe".data, "2024-03-01".data⟩ ∧
    importDerivedPair (canonicalTranscriptName "Jane Doe".data "2024-03-01".data
        "AbCdEfGhIjKlMn".data)
      = some (toLowerList "Jane Doe".data, "2024-03-01".data) :=
  @claim_C8 ("Jane Doe - 2024-03-01 10:00:00 GMT.mp4".data) ("Jane Doe".data)
    ("2024-03-01".data) ("AbCdEfGhIjKlMn".data)
    (by decide) (by decide) (by decide) (by decide) (by decide)

/-- C6 counterexample: the filename below is accepted by the parser with
studentName `"Jo 2024-01-02x bar"` (the `+` removed by cleaning uncovers a
date-shaped window), but parsing its canonical rename returns the different
pair `("Jo", "2024-01-02")`: the round trip of the claim fails as stated. -/
theorem claim_C6_counterexample :
    extractStudentInfoFromFilename ("Jo +2024-01-02x bar - 2024-03-01.mp4".data)
      = some ⟨"Jo 2024-01-02x bar".data, "2024-03-01".data⟩ ∧
    canonicalName "Jo 2024-01-02x bar".data "2024-03-01".data "AbCdEfGhIjZZ".data
      = "Jo_2024-01-02x_bar_2024-03-01_AbCdEfGhIj.mp4".data ∧
    extractStudentInfoFromFilename (canonicalName "Jo 2024-01-02x bar".data
        "2024-03-01".data "AbCdEfGhIjZZ".data)
      = some ⟨"Jo".data, "2024-01-02".data⟩ ∧
    (⟨"Jo".data, "2024-01-02".data⟩ : StudentInfo)
      ≠ ⟨"Jo 2024-01-02x bar".data, "2024-03-01".data⟩ :=
  ⟨by decide, by decide, by decide, by decide⟩

/-- Witness for `claim_C6` at the specification's own example: parsing
`"Jane Doe - 2024-03-01 10:00:00 GMT.mp4"`, renaming with a file id starting
`AbCdEfGhIj`, and re-parsing gives back `("Jane Doe", "2024-03-01")`. -/
theorem claim_C6_witness :
    extractStudentInfoFromFilename "Jane Doe - 2024-03-01 10:00:00 GMT.mp4".data
      = some ⟨"Jane Doe".data, "2024-03-01".data⟩ ∧
    hasDateSub (wsRunsToUnderscore "Jane Doe".data) = false ∧
    ("AbCdEfGhIjKlMn".data.take 10).all idFragChar = true ∧
    canonicalName "Jane Doe".data "2024-03-01".data "AbCdEfGhIjKlMn".data
      = "Jane_Doe_2024-03-01_AbCdEfGhIj.mp4".data ∧
    extractStudentInfoFromFilename (canonicalName "Jane Doe".data "2024-03-01".data
        "AbCdEfGhIjKlMn".data) = some ⟨"Jane Doe".data, "2024-03-01".data⟩ := by
  refine ⟨by decide, by decide, by decide, by decide, ?_⟩
  exact @claim_C6 ("Jane Doe - 2024-03-01 10:00:00 GMT.mp4".data) ("Jane Doe".data)
    ("2024-03-01".data) ("AbCdEfGhIjKlMn".data) (by decide) (by decide) (by decide)

/-! ## The Job Submission Adapter: claim C5 -/

/-- **C5** (corrected) — The V8 submission adapter satisfies the stated
contract exactly: it returns `Except.ok` of the contract value on every fetch
outcome (the trimmed job id on a parseable 200 response with a nonempty
string `job_id`, null on any failure), never an exception.  The V9 variant,
however, succeeds only on the one recognized 200 body and escalates every
other outcome as an error — not merely unrecognized 200-body shapes. -/
theorem claim_C5 :
    (∀ o : FetchOutcome, sendFileInfoToCloudRun true o = .ok (cloudRunContract o))
    ∧ (∀ o : FetchOutcome, (sendFileInfoToCloudRunV9 true o).isOk = true ↔
        ∃ m, o = .resp 200 (.parsed m ("File saved to /incoming".data))) := by
  constructor
  · intro o
    cases o with
    | netError msg => rfl
    | resp status body =>
      by_cases hs : status = 200
      · subst hs
        cases body with
        | unparseable => rfl
        | parsed jobId message =>
          cases jobId with
          | none => rfl
          | some s =>
            by_cases h : jsTrim s = []
            · simp [sendFileInfoToCloudRun, cloudRunContract, h]
            · simp [sendFileInfoToCloudRun, cloudRunContract, h]
      · simp [sendFileInfoToCloudRun, cloudRunContract, hs]
  · intro o
    cases o with
    | netError msg => simp [sendFileInfoToCloudRunV9, Except.isOk, Except.toBool]
    | resp status body =>
      by_cases hs : status = 200
      · subst hs
        cases body with
        | unparseable => simp [sendFileInfoToCloudRunV9, Except.isOk, Except.toBool]
        | parsed jobId message =>
          by_cases hm : message = some ("File saved to /incoming".data)
          · subst hm
            simp [sendFileInfoToCloudRunV9, Except.isOk, Except.toBool]
          · simp [sendFileInfoToCloudRunV9, Except.isOk, Except.toBool, hm]
      · simp [sendFileInfoToCloudRunV9, Except.isOk, Except.toBool, hs]

/-- Counterexample for the literal reading of C5: on a non-200 response the
V8 adapter collapses to null, but the V9 variant throws — an escalation that
is not an unrecognized 200-body shape; a network-level error is escalated by
V9 as well. -/
theorem claim_C5_counterexample :
    sendFileInfoToCloudRun true (.resp 500 (.parsed none none)) = .ok none
    ∧ sendFileInfoToCloudRunV9 true (.resp 500 (.parsed none none))
        = .error ("Cloud Run returned non-200 status: 500".data)
    ∧ sendFileInfoToCloudRunV9 true (.netError "timeout".data)
        = .error ("Network-level error calling Cloud Run: timeout".data) := by
  refine ⟨rfl, ?_, rfl⟩
  decide

/-! ## saveHomeworkPrompt: claim C3 -/

/-- `rosterFindAux` only ever reports a row index strictly above its start. -/
theorem rosterFindAux_rowIndex {target : List Char} :
    ∀ (rows : List RosterRow) (r : Nat) (st : Student),
      rosterFindAux target r rows = some st → r < st.RosterRowIndex := by
  intro rows
  induction rows with
  | nil => intro r st h; simp [rosterFindAux] at h
  | cons row rest ih =>
    intro r st h
    rw [rosterFindAux] at h
    by_cases hc : row.email ≠ [] ∧ toLowerList (jsTrim row.email) = target
    · rw [if_pos hc] at h
      cases h
      exact Nat.lt_succ_self r
    · rw [if_neg hc] at h
      exact Nat.lt_of_succ_lt (ih (r + 1) st h)

/-- A roster hit always carries row index at least 2 (header row is 1, data
rows start at sheet row 2). -/
theorem rosterFindByEmail_rowIndex {rows : List RosterRow} {email : List Char}
    {st : Student} (h : rosterFindByEmail rows email = some st) :
    2 ≤ st.RosterRowIndex := by
  rw [rosterFindByEmail] at h
  by_cases he : email = []
  · rw [if_pos he] at h; cases h
  · rw [if_neg he] at h
    exact rosterFindAux_rowIndex rows 1 st h

/-- **C3** — After the prompt file is created, an append failure trashes the
created file (best effort: the trash outcome is the environment's, and a
trash failure neither replaces nor suppresses the append error), appends no
ledger row, and re-raises the append error; identically in the V9 variant. -/
theorem claim_C3 (env : HPEnv) (se hw bp pf msg : List Char) (student : Student)
    (hfind : rosterFindByEmail env.roster se = some student)
    (hdrive : student.Drive_Folder_ID ≠ [])
    (hcreate : ∀ fo fn, env.createFileOk fo fn = true)
    (happend : env.appendErr = some msg) :
    (saveHomeworkPrompt env se hw bp pf).fileCreated.isSome = true
    ∧ (saveHomeworkPrompt env se hw bp pf).fileTrashed = env.trashOk
    ∧ (saveHomeworkPrompt env se hw bp pf).rows = []
    ∧ (saveHomeworkPrompt env se hw bp pf).result
        = .error ("Failed to append ledger row: ".data ++ msg)
    ∧ (saveHomeworkPrompt { env with trashOk := false } se hw bp pf).result
        = (saveHomeworkPrompt { env with trashOk := true } se hw bp pf).result
    ∧ (saveHomeworkPromptV9 env se hw bp pf).fileCreated.isSome = true
    ∧ (saveHomeworkPromptV9 env se hw bp pf).fileTrashed = env.trashOk
    ∧ (saveHomeworkPromptV9 env se hw bp pf).rows = []
    ∧ (saveHomeworkPromptV9 env se hw bp pf).result
        = .error ("Failed to append ledger row: ".data ++ msg) := by
  simp [saveHomeworkPrompt, saveHomeworkPromptV9, hfind, hdrive, hcreate, happend]

/-- Witness for `claim_C3`: a concrete one-row roster and a failing append;
the file is created and trashed, no row is appended, and the append error is
re-raised. -/
theorem claim_C3_witness :
    (saveHomeworkPrompt
        ⟨[⟨"S1".data, "Ann".data, "a@b.c".data, "F1".data, []⟩],
         fun _ _ => true, "NF".data, some "boom".data, true,
         "tok".data, "now".data, "20260101".data, none, true⟩
        "a@b.c".data "H1".data "base".data "f.txt".data).fileTrashed = true
    ∧ (saveHomeworkPrompt
        ⟨[⟨"S1".data, "Ann".data, "a@b.c".data, "F1".data, []⟩],
         fun _ _ => true, "NF".data, some "boom".data, true,
         "tok".data, "now".data, "20260101".data, none, true⟩
        "a@b.c".data "H1".data "base".data "f.txt".data).rows = []
    ∧ (saveHomeworkPrompt
        ⟨[⟨"S1".data, "Ann".data, "a@b.c".data, "F1".data, []⟩],
         fun _ _ => true, "NF".data, some "boom".data, true,
         "tok".data, "now".data, "20260101".data, none, true⟩
        "a@b.c".data "H1".data "base".data "f.txt".data).result
        = .error "Failed to append ledger row: boom".data := by
  have h := claim_C3
    ⟨[⟨"S1".data, "Ann".data, "a@b.c".data, "F1".data, []⟩],
     fun _ _ => true, "NF".data, some "boom".data, true,
     "tok".data, "now".data, "20260101".data, none, true⟩
    "a@b.c".data "H1".data "base".data "f.txt".data "boom".data
    ⟨"S1".data, "Ann".data, "a@b.c".data, "F1".data, [], 2⟩
    (by decide) (by decide) (fun _ _ => rfl) rfl
  exact ⟨h.2.1, h.2.2.1, h.2.2.2.1⟩

/-! ## assignHomework: claims C9 and C10 -/

/-- The `hwId` recorded by `assignHomework` is `hwIdFor` of the found roster
row and today, on every control path. -/
theorem assignHomework_hwId (env : HPEnv) (se t0 : List Char)
    (ts : List (List Char)) (student : Student) (hse : se ≠ [])
    (hfind : rosterFindByEmail env.roster se = some student) :
    (assignHomework env se (t0 :: ts)).hwId
      = hwIdFor student.RosterRowIndex env.today := by
  simp only [assignHomework, if_neg hse, hfind]
  split <;> rename_i heq
  · rfl
  · cases env.portalBaseUrl <;> rfl

/-- The V9 `hwId` agrees with `hwIdFor` as well. -/
theorem assignHomeworkV9_hwId (env : HPEnv) (se t0 : List Char)
    (ts : List (List Char)) (student : Student) (hse : se ≠ [])
    (hfind : rosterFindByEmail env.roster se = some student) :
    (assignHomeworkV9 env se (t0 :: ts)).hwId
      = hwIdFor student.RosterRowIndex env.today := by
  simp only [assignHomeworkV9, if_neg hse, hfind]
  split <;> rename_i heq
  · rfl
  · cases env.portalBaseUrl <;> rfl

/-- Since a roster hit's row index is positive, `hwIdFor` never takes the
`X` fallback there. -/
theorem hwIdFor_of_found {rows : List RosterRow} {email : List Char}
    {st : Student} (h : rosterFindByEmail rows email = some st) :
    ∀ today, hwIdFor st.RosterRowIndex today
      = 'L' :: ((Nat.repr st.RosterRowIndex).data ++ '-' :: today) := by
  intro today
  have h2 := rosterFindByEmail_rowIndex h
  have : st.RosterRowIndex ≠ 0 := by omega
  simp [hwIdFor, this]

/-- **C9** — `assignHomework` derives the homework id as the letter `L`, the
student's roster row position, a hyphen, and the day stamp; two invocations
with the same day stamp against the same roster row (in either script
version) produce the identical id. -/
theorem claim_C9 (env env2 : HPEnv) (se se2 t0 t02 : List Char)
    (ts ts2 : List (List Char)) (student student2 : Student)
    (hse : se ≠ []) (hse2 : se2 ≠ [])
    (hfind : rosterFindByEmail env.roster se = some student)
    (hfind2 : rosterFindByEmail env2.roster se2 = some student2)
    (hday : env2.today = env.today)
    (hrow : student2.RosterRowIndex = student.RosterRowIndex) :
    (assignHomework env se (t0 :: ts)).hwId
      = 'L' :: ((Nat.repr student.RosterRowIndex).data ++ '-' :: env.today)
    ∧ (assignHomework env2 se2 (t02 :: ts2)).hwId
      = (assignHomework env se (t0 :: ts)).hwId
    ∧ (assignHomeworkV9 env se (t0 :: ts)).hwId
      = (assignHomework env se (t0 :: ts)).hwId := by
  rw [assignHomework_hwId env se t0 ts student hse hfind,
    assignHomework_hwId env2 se2 t02 ts2 student2 hse2 hfind2,
    assignHomeworkV9_hwId env se t0 ts student hse hfind,
    hwIdFor_of_found hfind, hwIdFor_of_found hfind2, hday, hrow]
  exact ⟨rfl, rfl, rfl⟩

/-- Witness for `claim_C9`: two different emails of a two-row roster hitting
the same roster row on two environments sharing the day stamp. -/
theorem claim_C9_witness :
    (assignHomework
        ⟨[⟨"S1".data, "Ann".data, "a@b.c".data, "F1".data, []⟩],
         fun _ _ => true, "NF".data, none, true,
         "tok".data, "now".data, "20260101".data, none, true⟩
        "a@b.c".data ["t.txt".data]).hwId = "L2-20260101".data
    ∧ (assignHomework
        ⟨[⟨"S1".data, "Ann".data, "A@B.C ".data, "F1".data, []⟩],
         fun _ _ => false, "NF2".data, some "x".data, false,
         "tok2".data, "now2".data, "20260101".data, some "u".data, false⟩
        " a@b.c".data ["other.txt".data]).hwId
      = (assignHomework
        ⟨[⟨"S1".data, "Ann".data, "a@b.c".data, "F1".data, []⟩],
         fun _ _ => true, "NF".data, none, true,
         "tok".data, "now".data, "20260101".data, none, true⟩
        "a@b.c".data ["t.txt".data]).hwId := by
  have h := claim_C9
    ⟨[⟨"S1".data, "Ann".data, "a@b.c".data, "F1".data, []⟩],
     fun _ _ => true, "NF".data, none, true,
     "tok".data, "now".data, "20260101".data, none, true⟩
    ⟨[⟨"S1".data, "Ann".data, "A@B.C ".data, "F1".data, []⟩],
     fun _ _ => false, "NF2".data, some "x".data, false,
     "tok2".data, "now2".data, "20260101".data, some "u".data, false⟩
    "a@b.c".data " a@b.c".data "t.txt".data "other.txt".data [] []
    ⟨"S1".data, "Ann".data, "a@b.c".data, "F1".data, [], 2⟩
    ⟨"S1".data, "Ann".data, "A@B.C".data, "F1".data, [], 2⟩
    (by decide) (by decide) (by decide) (by decide) rfl rfl
  exact ⟨h.1, h.2.1⟩

/-- `saveHomeworkPrompt` on a clean environment: one `Active` ledger row
carrying the fresh token, the created file kept. -/
theorem saveHomeworkPrompt_ok (env : HPEnv) (se hw bp pf : List Char)
    (student : Student)
    (hfind : rosterFindByEmail env.roster se = some student)
    (hdrive : student.Drive_Folder_ID ≠ [])
    (hcreate : ∀ fo fn, env.createFileOk fo fn = true)
    (happend : env.appendErr = none) :
    ∃ fc, saveHomeworkPrompt env se hw bp pf
      = ⟨some fc, false,
         [⟨student.Student_ID, student.Name, student.Email, hw, env.newFileId,
           env.token, env.nowIso, [], "Active".data, 0⟩],
         .ok env.token⟩ := by
  refine ⟨(student.Drive_Folder_ID,
    (if jsTrim pf = [] then "HW_".data
        ++ (if hw = [] then "Unknown-".data ++ env.today else hw)
        ++ "_prompt.txt".data
      else pf),
    jsTrim bp ++ "\n\n---\nStudent background / Life & Lifestyle\n".data
      ++ jsTrim (if student.LifeStyle = [] then "No profile data on record.".data
                 else student.LifeStyle)), ?_⟩
  simp [saveHomeworkPrompt, hfind, hdrive, hcreate, happend]

/-- V9 `saveHomeworkPrompt` on a clean environment. -/
theorem saveHomeworkPromptV9_ok (env : HPEnv) (se hw bp pf : List Char)
    (student : Student)
    (hfind : rosterFindByEmail env.roster se = some student)
    (hdrive : student.Drive_Folder_ID ≠ [])
    (hcreate : ∀ fo fn, env.createFileOk fo fn = true)
    (happend : env.appendErr = none) :
    ∃ fc, saveHomeworkPromptV9 env se hw bp pf
      = ⟨some fc, false,
         [⟨student.Student_ID, student.Name, student.Email, hw, env.newFileId,
           env.token, env.nowIso, [], "Active".data, 0⟩],
         .ok env.token⟩ := by
  refine ⟨(student.Drive_Folder_ID, pf,
    jsTrim bp ++ "\n\n---\nStudent background / Life & Lifestyle\n".data
      ++ jsTrim (if student.LifeStyle = [] then "No profile data on record.".data
                 else student.LifeStyle)), ?_⟩
  simp [saveHomeworkPromptV9, hfind, hdrive, hcreate, happend]

/-- **C10** — With the portal base URL unset, or with the notification email
failing, `assignHomework` (both versions) still completes: it returns
normally, keeps the created prompt file, and appends exactly one ledger row
holding the fresh token with status `Active` — only the notification is
skipped, so an assignment can exist that no student was notified about. -/
theorem claim_C10 (env : HPEnv) (se t0 : List Char) (ts : List (List Char))
    (student : Student) (hse : se ≠ [])
    (hfind : rosterFindByEmail env.roster se = some student)
    (hdrive : student.Drive_Folder_ID ≠ [])
    (hcreate : ∀ fo fn, env.createFileOk fo fn = true)
    (happend : env.appendErr = none)
    (hskip : env.portalBaseUrl = none ∨ env.mailOk = false) :
    (assignHomework env se (t0 :: ts)).result = .ok ()
    ∧ (assignHomework env se (t0 :: ts)).fileCreated.isSome = true
    ∧ (assignHomework env se (t0 :: ts)).fileTrashed = false
    ∧ (assignHomework env se (t0 :: ts)).rows.map
        (fun r => (r.token, r.tokenStatus))
        = [(env.token, "Active".data)]
    ∧ (assignHomework env se (t0 :: ts)).emailsSent = 0
    ∧ (assignHomeworkV9 env se (t0 :: ts)).result = .ok ()
    ∧ (assignHomeworkV9 env se (t0 :: ts)).rows.map
        (fun r => (r.token, r.tokenStatus))
        = [(env.token, "Active".data)]
    ∧ (assignHomeworkV9 env se (t0 :: ts)).emailsSent = 0 := by
  obtain ⟨fc8, h8⟩ := saveHomeworkPrompt_ok env se
    (hwIdFor student.RosterRowIndex env.today)
    (basePromptTemplate (joinComma (t0 :: ts)))
    (match promptTailMatch t0 with
      | some (d, frag) => "prompt_".data ++ d ++ '_' :: frag ++ ".txt".data
      | none => "HW_".data ++ hwIdFor student.RosterRowIndex env.today
          ++ "_prompt.txt".data)
    student hfind hdrive hcreate happend
  obtain ⟨fc9, h9⟩ := saveHomeworkPromptV9_ok env se
    (hwIdFor student.RosterRowIndex env.today)
    (basePromptTemplate (joinComma (t0 :: ts)))
    (match promptTailMatch t0 with
      | some (d, frag) => "prompt_".data ++ wsRunsToUnderscore student.Name
          ++ '_' :: d ++ '_' :: frag ++ ".txt".data
      | none => "prompt_".data ++ t0)
    student hfind hdrive hcreate happend
  simp only [assignHomework, assignHomeworkV9, if_neg hse, hfind, h8, h9]
  rcases hskip with hp | hm
  · simp [hp]
  · cases hpo : env.portalBaseUrl
    · simp
    · simp [hm]

/-- Witness for `claim_C10`: with no portal base URL configured, the
assignment still lands one `Active` ledger row and sends nothing. -/
theorem claim_C10_witness :
    (assignHomework
        ⟨[⟨"S1".data, "Ann".data, "a@b.c".data, "F1".data, []⟩],
         fun _ _ => true, "NF".data, none, true,
         "tok".data, "now".data, "20260101".data, none, true⟩
        "a@b.c".data ["t.txt".data]).result = .ok ()
    ∧ (assignHomework
        ⟨[⟨"S1".data, "Ann".data, "a@b.c".data, "F1".data, []⟩],
         fun _ _ => true, "NF".data, none, true,
         "tok".data, "now".data, "20260101".data, none, true⟩
        "a@b.c".data ["t.txt".data]).rows.map (fun r => (r.token, r.tokenStatus))
      = [("tok".data, "Active".data)]
    ∧ (assignHomework
        ⟨[⟨"S1".data, "Ann".data, "a@b.c".data, "F1".data, []⟩],
         fun _ _ => true, "NF".data, none, true,
         "tok".data, "now".data, "20260101".data, none, true⟩
        "a@b.c".data ["t.txt".data]).emailsSent = 0 := by
  have h := claim_C10
    ⟨[⟨"S1".data, "Ann".data, "a@b.c".data, "F1".data, []⟩],
     fun _ _ => true, "NF".data, none, true,
     "tok".data, "now".data, "20260101".data, none, true⟩
    "a@b.c".data "t.txt".data []
    ⟨"S1".data, "Ann".data, "a@b.c".data, "F1".data, [], 2⟩
    (by decide) (by decide) (by decide) (fun _ _ => rfl) rfl (Or.inl rfl)
  exact ⟨h.1, h.2.2.2.1, h.2.2.2.2.1⟩

/-! ## The Transcript Distribution Engine: claims C7 and C2 -/

/-- **C7** — When the student's folder already holds a file with the exact
target transcript name, the scan step only increments the skipped-exists
counter: no file is created, the per-student batch map is untouched (so the
transcript feeds no homework assignment), and every other counter is
unchanged. -/
theorem claim_C7 (env : ImportEnv) (st : ScanState)
    (rest g1 g2 nm content : List Char) (entry : RosterEntry)
    (hrest : rest ≠ []) (hnoslash : '/' ∉ rest)
    (hmatch : transcriptMatch rest = some (g1, g2)) (hstar : '*' ∉ g1)
    (hnm : nm = jsTrim (toLowerList (collapseWs (underscoresToSpaces
        (g1.map (fun c => if warningChar c then ' ' else c))))))
    (hnmne : nm ≠ [])
    (hlook : lookupMap env.rosterMap nm = some entry)
    (hemail : entry.email ≠ [])
    (hfetch : env.fetchContent ("transcripts/".data ++ rest) = some content)
    (hfolder : env.folderOk entry.folderId = true)
    (hexists : env.folderHasFile entry.folderId rest = true) :
    importScanStep env st ("transcripts/".data ++ rest)
      = { st with skippedExistsCount := st.skippedExistsCount + 1 } := by
  have hobj : ("transcripts/".data ++ rest) ≠ [] := by simp
  have hpre : "transcripts/".data <+: ("transcripts/".data ++ rest) :=
    ⟨rest, rfl⟩
  have hlast : ¬ ("transcripts/".data ++ rest).getLast? = some '/' := by
    rw [List.getLast?_append_of_ne_nil _ hrest]
    intro h
    exact hnoslash (List.mem_of_mem_getLast? h)
  have hdrop : ("transcripts/".data ++ rest).drop 12 = rest := by
    have h12 : ("transcripts/".data).length = 12 := rfl
    rw [← h12, List.drop_left]
  rw [importScanStep, if_neg hobj, if_neg (by
    push_neg
    exact ⟨hpre, hlast, hdrop ▸ hnoslash⟩), hdrop]
  simp only [if_neg hrest, hmatch]
  simp only [← hnm, if_neg hstar, if_neg hnmne, hlook, if_neg hemail, hfetch,
    hfolder, hexists]
  simp

/-- Witness for `claim_C7`: re-delivering `transcripts/Ann_2024-03-01.txt`
into a folder that already holds it only bumps the skipped-exists counter. -/
theorem claim_C7_witness :
    importScanStep
      ⟨[("ann".data, ⟨"F1".data, "Ann".data, "a@b.c".data⟩)],
       fun _ => some "hello".data, fun _ => true, fun _ _ => true,
       fun _ _ => true⟩
      initScanState ("transcripts/".data ++ "Ann_2024-03-01.txt".data)
      = { initScanState with skippedExistsCount := 1 } := by
  exact claim_C7
    ⟨[("ann".data, ⟨"F1".data, "Ann".data, "a@b.c".data⟩)],
     fun _ => some "hello".data, fun _ => true, fun _ _ => true,
     fun _ _ => true⟩
    initScanState "Ann_2024-03-01.txt".data "Ann".data "2024-03-01".data
    "ann".data "hello".data ⟨"F1".data, "Ann".data, "a@b.c".data⟩
    (by decide) (by decide) (by decide) (by decide) (by decide) (by decide)
    (by decide) (by decide) rfl rfl rfl

/-- Unfolding of `joinComma` on a two-or-more-element list. -/
theorem joinComma_cons_cons (x y : List Char) (ys : List (List Char)) :
    joinComma (x :: y :: ys) = x ++ (", ".data ++ joinComma (y :: ys)) := by
  simp [joinComma]

/-- Every element of a list is an infix of its comma-join. -/
theorem infix_joinComma {f : List Char} :
    ∀ {fs : List (List Char)}, f ∈ fs → f <:+: joinComma fs := by
  intro fs
  induction fs with
  | nil => intro h; cases h
  | cons x xs ih =>
    intro h
    cases xs with
    | nil =>
      rcases List.mem_singleton.1 h with rfl
      exact List.infix_refl f
    | cons y ys =>
      rw [joinComma_cons_cons]
      rcases List.mem_cons.1 h with rfl | hmem
      · exact (List.prefix_append f (", ".data ++ joinComma (y :: ys))).isInfix
      · exact ((ih hmem).trans (List.suffix_append (", ".data)
          (joinComma (y :: ys))).isInfix).trans
          (List.suffix_append x (", ".data ++ joinComma (y :: ys))).isInfix

/-- Under a clean environment, `assignHomework` appends exactly one ledger
row, sends at most one notification, and builds the prompt around the joined
transcript list. -/
theorem assignHomework_parts (env : HPEnv) (se t0 : List Char)
    (ts : List (List Char)) (student : Student) (hse : se ≠ [])
    (hfind : rosterFindByEmail env.roster se = some student)
    (hdrive : student.Drive_Folder_ID ≠ [])
    (hcreate : ∀ fo fn, env.createFileOk fo fn = true)
    (happend : env.appendErr = none) :
    (assignHomework env se (t0 :: ts)).rows.length = 1
    ∧ (assignHomework env se (t0 :: ts)).emailsSent ≤ 1
    ∧ (assignHomework env se (t0 :: ts)).basePrompt
        = basePromptTemplate (joinComma (t0 :: ts)) := by
  obtain ⟨fc8, h8⟩ := saveHomeworkPrompt_ok env se
    (hwIdFor student.RosterRowIndex env.today)
    (basePromptTemplate (joinComma (t0 :: ts)))
    (match promptTailMatch t0 with
      | some (d, frag) => "prompt_".data ++ d ++ '_' :: frag ++ ".txt".data
      | none => "HW_".data ++ hwIdFor student.RosterRowIndex env.today
          ++ "_prompt.txt".data)
    student hfind hdrive hcreate happend
  simp only [assignHomework, if_neg hse, hfind, h8]
  cases env.portalBaseUrl
  · simp
  · cases env.mailOk <;> simp

/-- **C2** — In the batch-consolidation loop, each batch-map entry yields
exactly one outcome in sequence; a student whose batch holds `n ≥ 1` newly
imported transcripts gets exactly one ledger row and at most one
notification, with all `n` filenames embedded in the prompt; an entry with
an empty batch yields no row and no notification. -/
theorem claim_C2 (env : HPEnv) (email t0 : List Char) (fs : List (List Char))
    (student : Student) (pre post : List (List Char × List (List Char)))
    (hemail : email ≠ [])
    (hfind : rosterFindByEmail env.roster email = some student)
    (hdrive : student.Drive_Folder_ID ≠ [])
    (hcreate : ∀ fo fn, env.createFileOk fo fn = true)
    (happend : env.appendErr = none) :
    runAssignLoop env (pre ++ (email, t0 :: fs) :: post)
      = runAssignLoop env pre
        ++ assignOutcome env (email, t0 :: fs) :: runAssignLoop env post
    ∧ (assignOutcome env (email, t0 :: fs)).rows.length = 1
    ∧ (assignOutcome env (email, t0 :: fs)).emailsSent ≤ 1
    ∧ (∀ f, f ∈ t0 :: fs → f <:+: (assignOutcome env (email, t0 :: fs)).basePrompt)
    ∧ (∀ p : List Char × List (List Char), p.2 = [] →
        assignOutcome env p = ⟨p.1, [], 0, []⟩) := by
  obtain ⟨hlen, hmail, hbp⟩ :=
    assignHomework_parts env email t0 fs student hemail hfind hdrive hcreate happend
  have hout : assignOutcome env (email, t0 :: fs)
      = ⟨email, (assignHomework env email (t0 :: fs)).rows,
         (assignHomework env email (t0 :: fs)).emailsSent,
         (assignHomework env email (t0 :: fs)).basePrompt⟩ := by
    rw [assignOutcome, if_pos (by simp)]
  refine ⟨by simp [runAssignLoop], ?_, ?_, ?_, ?_⟩
  · rw [hout]; exact hlen
  · rw [hout]; exact hmail
  · intro f hf
    rw [hout]
    show f <:+: (assignHomework env email (t0 :: fs)).basePrompt
    rw [hbp, basePromptTemplate]
    exact ((infix_joinComma hf).trans (List.infix_append _ _ _))
  · intro p hp
    rw [assignOutcome, if_neg (by simp [hp])]

/-- Witness for `claim_C2`: a batch of three transcripts for one student and
an empty batch for another. -/
theorem claim_C2_witness :
    (assignOutcome
        ⟨[⟨"S1".data, "Ann".data, "a@b.c".data, "F1".data, []⟩],
         fun _ _ => true, "NF".data, none, true,
         "tok".data, "now".data, "20260101".data, none, true⟩
        ("a@b.c".data, ["t1.txt".data, "t2.txt".data, "t3.txt".data])).rows.length
      = 1
    ∧ (assignOutcome
        ⟨[⟨"S1".data, "Ann".data, "a@b.c".data, "F1".data, []⟩],
         fun _ _ => true, "NF".data, none, true,
         "tok".data, "now".data, "20260101".data, none, true⟩
        ("a@b.c".data, ["t1.txt".data, "t2.txt".data, "t3.txt".data])).emailsSent
      ≤ 1
    ∧ "t2.txt".data <:+: (assignOutcome
        ⟨[⟨"S1".data, "Ann".data, "a@b.c".data, "F1".data, []⟩],
         fun _ _ => true, "NF".data, none, true,
         "tok".data, "now".data, "20260101".data, none, true⟩
        ("a@b.c".data, ["t1.txt".data, "t2.txt".data, "t3.txt".data])).basePrompt
    ∧ assignOutcome
        ⟨[⟨"S1".data, "Ann".data, "a@b.c".data, "F1".data, []⟩],
         fun _ _ => true, "NF".data, none, true,
         "tok".data, "now".data, "20260101".data, none, true⟩
        ("x@y.z".data, []) = ⟨"x@y.z".data, [], 0, []⟩ := by
  have h := claim_C2
    ⟨[⟨"S1".data, "Ann".data, "a@b.c".data, "F1".data, []⟩],
     fun _ _ => true, "NF".data, none, true,
     "tok".data, "now".data, "20260101".data, none, true⟩
    "a@b.c".data "t1.txt".data ["t2.txt".data, "t3.txt".data]
    ⟨"S1".data, "Ann".data, "a@b.c".data, "F1".data, [], 2⟩ [] []
    (by decide) (by decide) (by decide) (fun _ _ => rfl) rfl
  exact ⟨h.2.1, h.2.2.1, h.2.2.2.1 "t2.txt".data (by decide),
    h.2.2.2.2 ("x@y.z".data, []) rfl⟩

/-! ## The Job Status Poller: claim C1 -/

/-- A row whose status cell already holds a terminal status (or whose file
name is blank) is skipped entirely: no write, no completion handling. -/
theorem monitorRowStep_terminal (env : MonitorEnv) (row : JobRow)
    (h : jsTrim row.fileName = [] ∨ toLowerList (jsTrim row.status) ∈ terminalStatuses) :
    monitorRowStep env row = ⟨[], 0⟩ := by
  simp only [monitorRowStep]
  rw [if_pos h]

/-- If a pass enters completion handling at all, it does so exactly once,
writes the in-progress marker followed by a final status, and that final
status is terminal. -/
theorem monitorRowStep_completion (env : MonitorEnv) (row : JobRow)
    (hcc : (monitorRowStep env row).completionCalls ≠ 0) :
    ∃ fs, monitorRowStep env row = ⟨["processing_transcript".data, fs], 1⟩
      ∧ toLowerList (jsTrim fs) ∈ terminalStatuses := by
  simp only [monitorRowStep] at hcc ⊢
  set fn := jsTrim row.fileName with hfn
  set jid := jsTrim row.jobId with hjid
  set ls := toLowerList (jsTrim row.status) with hls
  by_cases h1 : fn = [] ∨ ls ∈ terminalStatuses
  · rw [if_pos h1] at hcc; exact absurd rfl hcc
  rw [if_neg h1] at hcc ⊢
  by_cases h2 : (ls ∈ submittedStatuses ∨ ls = "processing_transcript".data) ∧ jid = []
  · rw [if_pos h2] at hcc
    by_cases h2b : ls ≠ "error_missing_jobid".data
    · rw [if_pos h2b] at hcc; exact absurd rfl hcc
    · rw [if_neg h2b] at hcc; exact absurd rfl hcc
  rw [if_neg h2] at hcc ⊢
  by_cases h3 : ¬(ls ∈ submittedStatuses ∨ ls = "processing_transcript".data)
  · rw [if_pos h3] at hcc; exact absurd rfl hcc
  rw [if_neg h3] at hcc ⊢
  set ns := (match env.getStatus jid with
    | .ok s => s
    | .error _ => "exception_fetching_status".data) with hns
  by_cases h4 : toLowerList ns = "done".data
  · rw [if_pos h4] at hcc ⊢
    by_cases h5 : ls = "done".data
    · rw [if_pos h5] at hcc; exact absurd rfl hcc
    · rw [if_neg h5] at hcc ⊢
      refine ⟨_, rfl, ?_⟩
      cases hh : env.handleErr with
      | some m =>
        simp only [hh]
        by_cases hc1 : containsSub (toLowerList m) "transcript".data = true
        · rw [if_pos hc1]; decide
        · rw [if_neg hc1]
          by_cases hc2 : containsSub (toLowerList m) "gcs upload".data = true
          · rw [if_pos hc2]; decide
          · rw [if_neg hc2]
            by_cases hc3 : containsSub (toLowerList m) "movegcs".data = true
            · rw [if_pos hc3]; decide
            · rw [if_neg hc3]; decide
      | none =>
        simp only [hh]
        cases hm : env.moveErr with
        | some m =>
          simp only [hm]
          by_cases hc1 : containsSub (toLowerList m) "transcript".data = true
          · rw [if_pos hc1]; decide
          · rw [if_neg hc1]
            by_cases hc2 : containsSub (toLowerList m) "gcs upload".data = true
            · rw [if_pos hc2]; decide
            · rw [if_neg hc2]
              by_cases hc3 : containsSub (toLowerList m) "movegcs".data = true
              · rw [if_pos hc3]; decide
              · rw [if_neg hc3]; decide
        | none => simp only [hm]; decide
  rw [if_neg h4] at hcc ⊢
  by_cases h6 : toLowerList ns = "rate_limited".data
  · rw [if_pos h6] at hcc; exact absurd rfl hcc
  rw [if_neg h6] at hcc ⊢
  by_cases h7 : toLowerList ns ∈ terminalStatuses
  · rw [if_pos h7] at hcc
    by_cases h7b : toLowerList ns ≠ ls
    · rw [if_pos h7b] at hcc; exact absurd rfl hcc
    · rw [if_neg h7b] at hcc; exact absurd rfl hcc
  rw [if_neg h7] at hcc ⊢
  by_cases h8 : toLowerList ns ≠ ls ∧ ns ≠ []
  · rw [if_pos h8] at hcc; exact absurd rfl hcc
  · rw [if_neg h8] at hcc; exact absurd rfl hcc

/-- **C1** — A tracking row whose status is terminal is never written again
and never re-enters completion handling; and whenever a pass does run
completion handling for a row, it runs it exactly once and leaves the row in
a terminal status, so the immediately following pass (with no intervening
change to the row beyond the pass's own writes) performs no further side
effects on it. -/
theorem claim_C1 (env env2 : MonitorEnv) (row : JobRow) :
    (toLowerList (jsTrim row.status) ∈ terminalStatuses →
      monitorRowStep env row = ⟨[], 0⟩)
    ∧ ((monitorRowStep env row).completionCalls ≠ 0 →
        (monitorRowStep env row).completionCalls = 1
        ∧ monitorRowStep env2
            (applyRowWrites row (monitorRowStep env row).writes) = ⟨[], 0⟩) := by
  refine ⟨fun h => monitorRowStep_terminal env row (Or.inr h), fun hcc => ?_⟩
  obtain ⟨fs, heq, hterm⟩ := monitorRowStep_completion env row hcc
  rw [heq]
  refine ⟨rfl, ?_⟩
  show monitorRowStep env2 { row with status := fs } = ⟨[], 0⟩
  exact monitorRowStep_terminal env2 _ (Or.inr hterm)

/-- Witness for `claim_C1`: a `running` row whose poll returns `done` is
completed once and the follow-up pass skips it; a row already `done` is
skipped outright. -/
theorem claim_C1_witness :
    (monitorRowStep
      ⟨fun _ => .ok "done".data, none, none⟩
      ⟨"f.mp4".data, "j1".data, "running".data⟩).completionCalls = 1
    ∧ monitorRowStep ⟨fun _ => .ok "done".data, none, none⟩
        (applyRowWrites ⟨"f.mp4".data, "j1".data, "running".data⟩
          (monitorRowStep ⟨fun _ => .ok "done".data, none, none⟩
            ⟨"f.mp4".data, "j1".data, "running".data⟩).writes) = ⟨[], 0⟩
    ∧ monitorRowStep ⟨fun _ => .ok "done".data, none, none⟩
        ⟨"f.mp4".data, "j1".data, "done".data⟩ = ⟨[], 0⟩ := by
  have h := claim_C1 ⟨fun _ => .ok "done".data, none, none⟩
    ⟨fun _ => .ok "done".data, none, none⟩
    ⟨"f.mp4".data, "j1".data, "running".data⟩
  have h2 := claim_C1 ⟨fun _ => .ok "done".data, none, none⟩
    ⟨fun _ => .ok "done".data, none, none⟩
    ⟨"f.mp4".data, "j1".data, "done".data⟩
  exact ⟨(h.2 (by decide)).1, (h.2 (by decide)).2, h2.1 (by decide)⟩

/-! ## The Discovery and Dedup Engine: claim C4 -/

/-- The last character of anything ending in `.mp4`. -/
theorem getLast_append_mp4 (X : List Char) :
    (X ++ ['.', 'm', 'p', '4']).getLast? = some '4' := by
  rw [List.getLast?_append_of_ne_nil X (by decide)]
  rfl

/-- A canonical renamed filename is `trim`-fixed and nonempty: its head is
the (non-whitespace) first character of the parsed student name and it ends
in `4`. -/
theorem canonical_facts {f n d : List Char}
    (h : extractStudentInfoFromFilename f = some ⟨n, d⟩) (id : List Char) :
    jsTrim (canonicalName n d id) = canonicalName n d id
    ∧ canonicalName n d id ≠ [] := by
  obtain ⟨hne, hd, hchars, hpairs, hhead, hlast⟩ := extract_props h
  have hws : ∀ c ∈ n, jsWs c = true → c = ' ' := fun c hc => (hchars c hc).2.2.2
  have hmapN := wsRunsToUnderscore_eq_map hpairs hws
  have hassoc : canonicalName n d id
      = (wsRunsToUnderscore n ++ '_' :: d ++ '_' :: id.take 10)
        ++ ['.', 'm', 'p', '4'] := by
    simp [canonicalName]
  have hheadN : ∀ c, (wsRunsToUnderscore n).head? = some c → jsWs c = false := by
    intro c hc
    rw [hmapN] at hc
    cases hn : n with
    | nil => exact absurd hn hne
    | cons c0 t =>
      rw [hn] at hc
      simp only [List.map_cons, List.head?_cons, Option.some_inj] at hc
      have hc0 : jsWs c0 = false := hhead c0 (by rw [hn]; rfl)
      have hc0ne : ¬c0 = ' ' := by
        intro hx; rw [hx] at hc0; exact absurd hc0 (by decide)
      rw [← hc]
      simp only [if_neg hc0ne]
      exact hc0
  have hNne : wsRunsToUnderscore n ≠ [] := by
    rw [hmapN]
    simpa using hne
  constructor
  · apply jsTrim_eq_self
    · intro c hc
      rw [canonicalName] at hc
      cases hN : wsRunsToUnderscore n with
      | nil => exact absurd hN hNne
      | cons a as =>
        rw [hN] at hc
        simp only [List.cons_append, List.head?_cons, Option.some_inj] at hc
        refine hheadN c ?_
        rw [hN, List.head?_cons, hc]
    · intro c hc
      rw [hassoc, getLast_append_mp4, Option.some_inj] at hc
      rw [← hc]
      decide
  · rw [hassoc]
    simp


/-- `Settled` is monotone in the set of known names. -/
theorem settled_mono {env : ProcessEnv} {S S2 : List (List Char)}
    {f : DriveFile} (hsub : ∀ x ∈ S, x ∈ S2) (h : Settled env S f) :
    Settled env S2 f := by
  rcases h with h | h | h | ⟨info, hp, h | h⟩
  · exact Or.inl h
  · exact Or.inr (Or.inl (hsub _ h))
  · exact Or.inr (Or.inr (Or.inl h))
  · exact Or.inr (Or.inr (Or.inr ⟨info, hp, Or.inl (hsub _ h)⟩))
  · exact Or.inr (Or.inr (Or.inr ⟨info, hp, Or.inr h⟩))

/-- Processing a settled file appends no row and learns no new name. -/
theorem processOneFile_settled (env : ProcessEnv) (st : ProcState)
    (f : DriveFile) (h : Settled env st.existing f) :
    (processOneFile env st f).rowsAppended = st.rowsAppended
    ∧ (processOneFile env st f).existing = st.existing := by
  simp only [processOneFile]
  by_cases hv : ¬("video/".data <+: f.mime)
  · rw [if_pos hv]; exact ⟨rfl, rfl⟩
  rw [if_neg hv]
  rw [not_not] at hv
  by_cases hd : jsTrim f.name ∈ st.existing
    ∨ (alreadyRenamedTest f.name = true ∧ jsTrim f.name ∈ st.existing)
  · rw [if_pos hd]; exact ⟨rfl, rfl⟩
  rw [if_neg hd]
  split
  · exact ⟨rfl, rfl⟩
  rename_i info hp
  by_cases hc : canonicalName info.studentName info.classDate f.id ∈ st.existing
  · rw [if_pos hc]; exact ⟨rfl, rfl⟩
  rw [if_neg hc]
  by_cases hr : env.renameFails f.id = true
  · rw [if_pos hr]; exact ⟨rfl, rfl⟩
  rw [if_neg hr]
  exfalso
  rcases h with h | h | h | ⟨info2, hp2, h | h⟩
  · exact h hv
  · exact hd (Or.inl h)
  · rw [hp] at h; cases h
  · rw [hp] at hp2
    rw [Option.some_inj] at hp2
    rw [← hp2] at h
    exact hc h
  · exact hr h


/-- One loop iteration preserves the invariant. -/
theorem step_inv (env : ProcessEnv) (base : List (List Char)) (st : ProcState)
    (f : DriveFile) (h : ProcInv env base st) :
    ProcInv env base (processOneFile env st f) := by
  obtain ⟨h1, h2, h3, h4⟩ := h
  simp only [processOneFile]
  by_cases hv : ¬("video/".data <+: f.mime)
  · rw [if_pos hv]
    refine ⟨h1, h2, ?_, h4⟩
    intro g hg
    rcases List.mem_append.1 hg with hg | hg
    · exact h3 g hg
    · rcases List.mem_singleton.1 hg with rfl
      exact Or.inl hv
  rw [if_neg hv]
  rw [not_not] at hv
  by_cases hd : jsTrim f.name ∈ st.existing
    ∨ (alreadyRenamedTest f.name = true ∧ jsTrim f.name ∈ st.existing)
  · rw [if_pos hd]
    refine ⟨h1, h2, ?_, h4⟩
    intro g hg
    rcases List.mem_append.1 hg with hg | hg
    · exact h3 g hg
    · rcases List.mem_singleton.1 hg with rfl
      rcases hd with hd | ⟨-, hd⟩ <;> exact Or.inr (Or.inl hd)
  rw [if_neg hd]
  split
  · rename_i hp
    refine ⟨h1, h2, ?_, h4⟩
    intro g hg
    rcases List.mem_append.1 hg with hg | hg
    · exact h3 g hg
    · rcases List.mem_singleton.1 hg with rfl
      exact Or.inr (Or.inr (Or.inl hp))
  rename_i info hp
  by_cases hc : canonicalName info.studentName info.classDate f.id ∈ st.existing
  · rw [if_pos hc]
    refine ⟨h1, h2, ?_, h4⟩
    intro g hg
    rcases List.mem_append.1 hg with hg | hg
    · exact h3 g hg
    · rcases List.mem_singleton.1 hg with rfl
      exact Or.inr (Or.inr (Or.inr ⟨info, hp, Or.inl hc⟩))
  rw [if_neg hc]
  by_cases hr : env.renameFails f.id = true
  · rw [if_pos hr]
    refine ⟨h1, h2, ?_, h4⟩
    intro g hg
    rcases List.mem_append.1 hg with hg | hg
    · exact h3 g hg
    · rcases List.mem_singleton.1 hg with rfl
      exact Or.inr (Or.inr (Or.inr ⟨info, hp, Or.inr hr⟩))
  rw [if_neg hr]
  obtain ⟨n2, d2⟩ := info
  obtain ⟨hfix, hne2⟩ := canonical_facts hp f.id
  have hnotin : canonicalName n2 d2 f.id
      ∉ st.rowsAppended.map (fun r => r.fileName) := by
    intro hx
    exact hc (by rw [h1]; exact List.mem_append.2 (Or.inr hx))
  refine ⟨?_, ?_, ?_, ?_⟩
  · rw [List.map_append, h1, List.append_assoc]
    rfl
  · intro r hr2
    rcases List.mem_append.1 hr2 with hr2 | hr2
    · exact h2 r hr2
    · rcases List.mem_singleton.1 hr2 with rfl
      exact ⟨hfix, hne2⟩
  · intro g hg
    have hsub : ∀ x ∈ st.existing,
        x ∈ st.existing ++ [canonicalName n2 d2 f.id] :=
      fun x hx => List.mem_append.2 (Or.inl hx)
    rcases List.mem_append.1 hg with hg | hg
    · exact settled_mono hsub (h3 g hg)
    · rcases List.mem_singleton.1 hg with rfl
      refine Or.inr (Or.inl ?_)
      show jsTrim (canonicalName n2 d2 f.id)
        ∈ st.existing ++ [canonicalName n2 d2 f.id]
      rw [hfix]
      exact List.mem_append.2 (Or.inr (List.mem_singleton.2 rfl))
  · rw [List.map_append]
    rw [List.nodup_append]
    exact ⟨h4, List.nodup_singleton _, by
      intro x hx hx2
      rcases List.mem_singleton.1 hx2 with rfl
      exact hnotin hx⟩

/-- The invariant holds after any number of iterations. -/
theorem foldl_inv (env : ProcessEnv) (base : List (List Char)) :
    ∀ (files : List DriveFile) (st : ProcState), ProcInv env base st →
      ProcInv env base (files.foldl (processOneFile env) st) := by
  intro files
  induction files with
  | nil => intro st h; exact h
  | cons f fs ih => intro st h; exact ih _ (step_inv env base st f h)

/-- The invariant of a whole `processNewRecordings` run. -/
theorem processNR_inv (env : ProcessEnv) (files : List DriveFile)
    (ledger : List TrackRow) :
    ProcInv env (existingFrom ledger) (processNewRecordings env files ledger) := by
  apply foldl_inv
  refine ⟨by simp, ?_, ?_, by simp⟩
  · intro r hr; cases hr
  · intro g hg; cases hg

/-- A run over settled files appends nothing and learns nothing. -/
theorem settled_run (env : ProcessEnv) :
    ∀ (files : List DriveFile) (st : ProcState) (S0 : List (List Char)),
      (∀ f ∈ files, Settled env S0 f) → (∀ x ∈ S0, x ∈ st.existing) →
      (files.foldl (processOneFile env) st).rowsAppended = st.rowsAppended
      ∧ (files.foldl (processOneFile env) st).existing = st.existing := by
  intro files
  induction files with
  | nil => intro st S0 _ _; exact ⟨rfl, rfl⟩
  | cons f fs ih =>
    intro st S0 hall hsub
    have hf : Settled env st.existing f :=
      settled_mono hsub (hall f (List.mem_cons_self f fs))
    obtain ⟨hrow, hex⟩ := processOneFile_settled env st f hf
    have hrec := ih (processOneFile env st f) S0
      (fun g hg => hall g (List.mem_cons_of_mem f hg))
      (fun x hx => hex ▸ hsub x hx)
    exact ⟨hrec.1.trans hrow, hrec.2.trans hex⟩

/-- `existingFrom` distributes over ledger concatenation. -/
theorem existingFrom_append (A B : List TrackRow) :
    existingFrom (A ++ B) = existingFrom A ++ existingFrom B := by
  simp [existingFrom]

/-- On rows whose names are trim-fixed and nonempty, `existingFrom` is just
the name projection. -/
theorem existingFrom_fixed (rows : List TrackRow)
    (h : ∀ r ∈ rows, jsTrim r.fileName = r.fileName ∧ r.fileName ≠ []) :
    existingFrom rows = rows.map (fun r => r.fileName) := by
  induction rows with
  | nil => rfl
  | cons r t ih =>
    obtain ⟨hfix, hne⟩ := h r (List.mem_cons_self r t)
    simp only [existingFrom, List.map_cons, List.filter_cons, hfix]
    rw [if_pos (by simpa using hne)]
    have := ih (fun x hx => h x (List.mem_cons_of_mem r hx))
    rw [existingFrom] at this
    rw [this]

/-- **C4** — A second `processNewRecordings` run against the unchanged file
collection (the files as the first run left them) and the grown ledger
appends zero rows and leaves the known-name set unchanged; and the rows the
first run appended carry pairwise distinct filenames — one ledger row per
physical file. -/
theorem claim_C4 (env : ProcessEnv) (files : List DriveFile)
    (ledger : List TrackRow) :
    (processNewRecordings env (processNewRecordings env files ledger).filesOut
      (ledger ++ (processNewRecordings env files ledger).rowsAppended)).rowsAppended
      = []
    ∧ (processNewRecordings env (processNewRecordings env files ledger).filesOut
      (ledger ++ (processNewRecordings env files ledger).rowsAppended)).existing
      = (processNewRecordings env files ledger).existing
    ∧ ((processNewRecordings env files ledger).rowsAppended.map
        (fun r => r.fileName)).Nodup := by
  obtain ⟨h1, h2, h3, h4⟩ := processNR_inv env files ledger
  have hbase2 : existingFrom
      (ledger ++ (processNewRecordings env files ledger).rowsAppended)
      = (processNewRecordings env files ledger).existing := by
    rw [existingFrom_append, existingFrom_fixed _ h2, ← h1]
  have hrun := settled_run env (processNewRecordings env files ledger).filesOut
    ⟨existingFrom (ledger ++ (processNewRecordings env files ledger).rowsAppended),
     [], 0, []⟩
    (processNewRecordings env files ledger).existing h3
    (by
      intro x hx
      show x ∈ existingFrom
        (ledger ++ (processNewRecordings env files ledger).rowsAppended)
      rw [hbase2]
      exact hx)
  refine ⟨hrun.1, ?_, h4⟩
  show (processNewRecordings env (processNewRecordings env files ledger).filesOut
      (ledger ++ (processNewRecordings env files ledger).rowsAppended)).existing
      = _
  rw [processNewRecordings]
  rw [hrun.2]
  exact hbase2

end EduScribe
